import Mathlib

/-!
Verification development for the video-to-notes pipeline.

The definitions below are shallow embeddings of the Python source:
* `braceScan`, `extractCandidate`, `extractStage` embed the JSON-extraction
  pass of `Summarizer.generate_summary` (scripts/core/summarizer.py);
* `PyVal`, `jsonLoads` embed the loosely-typed payloads and `json.loads`;
* `validateAndClean` embeds `Summarizer._validate_and_clean_json`;
* `parseTextResponse` embeds `Summarizer._parse_text_response`;
* `extract_audio`, `download_video`, `cleanupTempFiles`, `runCleanup` embed
  the corresponding operations of scripts/core/video_processor.py and the
  cleanup block of scripts/process_video.py.
-/

set_option autoImplicit false

namespace VTN

/-- Python `str.strip()` whitespace set (ASCII part). -/
def isPySpace (c : Char) : Bool :=
  c = ' ' || c = '\t' || c = '\n' || c = '\x0d' || c = '\x0b' || c = '\x0c'

/-- Python `s.strip()`: drop whitespace from both ends. -/
def pstrip (s : List Char) : List Char :=
  ((s.dropWhile isPySpace).reverse.dropWhile isPySpace).reverse

/-- Python `s.strip(c)` for a single character `c`. -/
def stripCh (c : Char) (s : List Char) : List Char :=
  ((s.dropWhile (· = c)).reverse.dropWhile (· = c)).reverse

/-- Python `s.startswith(p)`. -/
def startsWithL (p s : List Char) : Bool :=
  p.isPrefixOf s

/-- Python `p in s` (contiguous substring test). -/
def containsSub (p : List Char) : List Char → Bool
  | [] => p.isPrefixOf ([] : List Char)
  | c :: rest => p.isPrefixOf (c :: rest) || containsSub p rest

/-- Python `s.split(sep)` for a one-character separator. -/
def splitOnCh (sep : Char) (s : List Char) : List (List Char) :=
  s.splitOn sep

/-- Python `s.lower()` (ASCII case folding suffices for the source's checks). -/
def lowerL (s : List Char) : List Char :=
  s.map Char.toLower

/-!
Section: Brace-depth scan (`Summarizer.generate_summary`, strategy 1)

The Python loop maintains `brace_count : int`, `in_string : bool`,
`escape_next : bool` and walks the response from the first `'\x7b'`.
`braceScan cs count inString escNext i` returns `Sum.inr (i + n)` when the
loop breaks with `brace_end = i + n` (depth returned to zero after `n`
characters), and `Sum.inl finalCount` when the input ends first.
-/
def braceScan : List Char → Int → Bool → Bool → Nat → Sum Int Nat
  | [], count, _, _, _ => Sum.inl count
  | c :: rest, count, inString, escNext, i =>
    if escNext then
      braceScan rest count inString false (i + 1)
    else if c = '"' then
      braceScan rest count (!inString) false (i + 1)
    else if c = '\\' then
      braceScan rest count inString true (i + 1)
    else if inString then
      braceScan rest count inString false (i + 1)
    else if c = '\x7b' then
      braceScan rest (count + 1) inString false (i + 1)
    else if c = '\x7d' then
      if count - 1 = 0 then Sum.inr (i + 1)
      else braceScan rest (count - 1) inString false (i + 1)
    else
      braceScan rest count inString false (i + 1)

/-- `content.find('\x7b')` of the Python source: index of the first opening
brace, if any. -/
def firstBraceIdx (content : List Char) : Option Nat :=
  content.findIdx? (· = '\x7b')

/-- The candidate span selected by the brace-matching pass: the substring from
the first opening brace to the position where the depth counter returns to
zero (`content[brace_start:brace_end]`).  `none` when there is no opening
brace or the depth never returns to zero. -/
def extractCandidate (content : List Char) : Option (List Char) :=
  match firstBraceIdx content with
  | none => none
  | some start =>
    let tail := content.drop start
    match braceScan tail 0 false false 0 with
    | Sum.inr endPos => some (tail.take endPos)
    | Sum.inl _ => none

/-!
Section: Well-formed JSON texts

`Json` is the shape of a well-formed JSON document; `serialize` renders it in
the canonical form the claims quote (`": "` after keys, `", "` between
items).  String content is arbitrary — in particular it may contain literal
braces — and is escaped exactly as JSON requires for `"` and `\`.
-/
inductive Json where
  | null : Json
  | jbool (b : Bool) : Json
  | jnum (n : Int) : Json
  | jstr (s : List Char) : Json
  | jarr (elems : List Json) : Json
  | jobj (fields : List (List Char × Json)) : Json

/-- JSON string escaping for the quote and backslash characters. -/
def escCh (c : Char) : List Char :=
  if c = '"' || c = '\\' then ['\\', c] else [c]

/-- Escape a string body for embedding between JSON quotes. -/
def escStr (s : List Char) : List Char :=
  s.flatMap escCh

/-- Decimal digits of a natural number. -/
def natChars (n : Nat) : List Char :=
  if h : n < 10 then [Char.ofNat (48 + n)]
  else natChars (n / 10) ++ [Char.ofNat (48 + n % 10)]
  decreasing_by exact Nat.div_lt_self (by omega) (by omega)

/-- Decimal rendering of an integer. -/
def intChars (n : Int) : List Char :=
  if n < 0 then '-' :: natChars n.natAbs else natChars n.toNat

mutual

/-- Render a JSON value as text. -/
def serialize : Json → List Char
  | Json.null => ['n', 'u', 'l', 'l']
  | Json.jbool true => ['t', 'r', 'u', 'e']
  | Json.jbool false => ['f', 'a', 'l', 's', 'e']
  | Json.jnum n => intChars n
  | Json.jstr s => '"' :: escStr s ++ ['"']
  | Json.jarr es => '[' :: serializeList es ++ [']']
  | Json.jobj fs => '\x7b' :: serializeFields fs ++ ['\x7d']

/-- Render array elements, separated by `", "`. -/
def serializeList : List Json → List Char
  | [] => []
  | [e] => serialize e
  | e :: e2 :: es => serialize e ++ ',' :: ' ' :: serializeList (e2 :: es)

/-- Render object fields (`"key": value`), separated by `", "`. -/
def serializeFields : List (List Char × Json) → List Char
  | [] => []
  | [(k, v)] => '"' :: escStr k ++ '"' :: ':' :: ' ' :: serialize v
  | (k, v) :: f2 :: fs =>
    ('"' :: escStr k ++ '"' :: ':' :: ' ' :: serialize v) ++
      ',' :: ' ' :: serializeFields (f2 :: fs)

end

/-!
Section: Scan neutrality

`SN cs` says the scan walks straight through `cs` when it starts outside a
string at depth at least 1; `SNStr cs` says the same for a start inside a
string.  Both are closed under appending, which lets the neutrality of a
whole serialized value follow from neutrality of its pieces.
-/

/-- Neutral outside a string, at depth ≥ 1. -/
def SN (cs : List Char) : Prop :=
  ∀ (rest : List Char) (count : Int) (i : Nat), 1 ≤ count →
    braceScan (cs ++ rest) count false false i =
      braceScan rest count false false (i + cs.length)

/-- Neutral inside a string. -/
def SNStr (cs : List Char) : Prop :=
  ∀ (rest : List Char) (count : Int) (i : Nat),
    braceScan (cs ++ rest) count true false i =
      braceScan rest count true false (i + cs.length)

theorem SN_nil : SN [] := by
  intro rest count i _
  simp

theorem SN_append {a b : List Char} (ha : SN a) (hb : SN b) : SN (a ++ b) := by
  intro rest count i hc
  rw [List.append_assoc, ha (b ++ rest) count i hc, hb rest count (i + a.length) hc]
  simp [Nat.add_assoc]

theorem SNStr_nil : SNStr [] := by
  intro rest count i
  simp

theorem SNStr_append {a b : List Char} (ha : SNStr a) (hb : SNStr b) :
    SNStr (a ++ b) := by
  intro rest count i
  rw [List.append_assoc, ha (b ++ rest) count i, hb rest count (i + a.length)]
  simp [Nat.add_assoc]

theorem SNStr_plain {c : Char} (hq : c ≠ '"') (hb : c ≠ '\\') : SNStr [c] := by
  intro rest count i
  simp [braceScan, hq, hb]

theorem SNStr_escaped (c : Char) : SNStr ['\\', c] := by
  intro rest count i
  simp only [List.cons_append, List.nil_append]
  rw [show braceScan ('\\' :: c :: rest) count true false i =
        braceScan (c :: rest) count true true (i + 1) by
      simp [braceScan]]
  rw [show braceScan (c :: rest) count true true (i + 1) =
        braceScan rest count true false (i + 1 + 1) by
      simp [braceScan]]
  norm_num

theorem SNStr_escCh (c : Char) : SNStr (escCh c) := by
  by_cases h1 : c = '"'
  · have : escCh c = ['\\', c] := by simp [escCh, h1]
    rw [this]
    exact SNStr_escaped c
  · by_cases h2 : c = '\\'
    · have : escCh c = ['\\', c] := by simp [escCh, h2]
      rw [this]
      exact SNStr_escaped c
    · have : escCh c = [c] := by simp [escCh, h1, h2]
      rw [this]
      exact SNStr_plain h1 h2

theorem SNStr_escStr (s : List Char) : SNStr (escStr s) := by
  induction s with
  | nil => exact SNStr_nil
  | cons c cs ih =>
    have : escStr (c :: cs) = escCh c ++ escStr cs := by
      simp [escStr]
    rw [this]
    exact SNStr_append (SNStr_escCh c) ih

theorem SN_plain {c : Char} (hq : c ≠ '"') (hb : c ≠ '\\') (ho : c ≠ '\x7b')
    (hc : c ≠ '\x7d') : SN [c] := by
  intro rest count i _
  simp [braceScan, hq, hb, ho, hc]

/-- A quoted JSON string is neutral: the scan enters string context at the
opening quote and leaves it at the closing quote, and nothing in between
touches the depth counter. -/
theorem SN_quoted (s : List Char) : SN ('"' :: escStr s ++ ['"']) := by
  intro rest count i _
  have h1 : braceScan (('"' :: escStr s ++ ['"']) ++ rest) count false false i =
      braceScan ((escStr s ++ ['"']) ++ rest) count true false (i + 1) := by
    simp [braceScan]
  rw [h1, List.append_assoc, SNStr_escStr s (['"'] ++ rest) count (i + 1)]
  have h2 : braceScan (['"'] ++ rest) count true false (i + 1 + (escStr s).length) =
      braceScan rest count false false (i + 1 + (escStr s).length + 1) := by
    simp [braceScan]
  rw [h2]
  congr 1
  simp
  omega

theorem SN_of_all_plain {cs : List Char}
    (h : ∀ c ∈ cs, c ≠ '"' ∧ c ≠ '\\' ∧ c ≠ '\x7b' ∧ c ≠ '\x7d') : SN cs := by
  induction cs with
  | nil => exact SN_nil
  | cons c rest ih =>
    have hc := h c (by simp)
    have : (c :: rest) = [c] ++ rest := rfl
    rw [this]
    exact SN_append (SN_plain hc.1 hc.2.1 hc.2.2.1 hc.2.2.2)
      (ih fun x hx => h x (by simp [hx]))

theorem isDigit_plain {c : Char} (h : c.isDigit = true) :
    c ≠ '"' ∧ c ≠ '\\' ∧ c ≠ '\x7b' ∧ c ≠ '\x7d' := by
  refine ⟨?_, ?_, ?_, ?_⟩ <;> (rintro rfl; exact absurd h (by decide))

theorem natChars_digits (n : Nat) : ∀ c ∈ natChars n, c.isDigit = true := by
  induction n using Nat.strong_induction_on with
  | _ n ih =>
    intro c hc
    unfold natChars at hc
    by_cases h : n < 10
    · simp only [h, dif_pos] at hc
      simp only [List.mem_singleton] at hc
      subst hc
      interval_cases n <;> decide
    · simp only [h, dif_neg] at hc
      rcases List.mem_append.mp hc with h1 | h1
      · exact ih (n / 10) (Nat.div_lt_self (by omega) (by omega)) c h1
      · simp only [List.mem_singleton] at h1
        subst h1
        have : n % 10 < 10 := Nat.mod_lt _ (by omega)
        interval_cases h2 : n % 10 <;> decide

theorem SN_natChars (n : Nat) : SN (natChars n) :=
  SN_of_all_plain fun c hc => isDigit_plain (natChars_digits n c hc)

theorem SN_intChars (n : Int) : SN (intChars n) := by
  unfold intChars
  by_cases h : n < 0
  · simp only [h, if_pos]
    have : ('-' :: natChars n.natAbs) = ['-'] ++ natChars n.natAbs := rfl
    rw [this]
    exact SN_append (SN_plain (by decide) (by decide) (by decide) (by decide))
      (SN_natChars _)
  · simp only [h, if_neg]
    exact SN_natChars _

/-- A braced group around a neutral body is neutral: the opening brace lifts
the depth from `count ≥ 1` to `count + 1`, and the closing brace brings it
back to `count ≠ 0`, so the loop does not break inside the group. -/
theorem SN_braced {inner : List Char} (h : SN inner) :
    SN ('\x7b' :: inner ++ ['\x7d']) := by
  intro rest count i hc
  have h1 : braceScan (('\x7b' :: inner ++ ['\x7d']) ++ rest) count false false i =
      braceScan ((inner ++ ['\x7d']) ++ rest) (count + 1) false false (i + 1) := by
    simp [braceScan]
  rw [h1, List.append_assoc, h (['\x7d'] ++ rest) (count + 1) (i + 1) (by omega)]
  have h2 : braceScan (['\x7d'] ++ rest) (count + 1) false false
        (i + 1 + inner.length) =
      braceScan rest count false false (i + 1 + inner.length + 1) := by
    have hne : ¬(count + 1 - 1 = 0) := by omega
    have hne2 : ¬(count = 0) := by omega
    simp [braceScan, hne, hne2]
  rw [h2]
  congr 1
  simp
  omega

theorem SN_serializeList {es : List Json} (h : ∀ e ∈ es, SN (serialize e)) :
    SN (serializeList es) := by
  induction es with
  | nil => exact SN_nil
  | cons e es ih =>
    cases es with
    | nil => simpa [serializeList] using h e (by simp)
    | cons e2 es' =>
      have heq : serializeList (e :: e2 :: es') =
          serialize e ++ ([',', ' '] ++ serializeList (e2 :: es')) := by
        simp [serializeList]
      rw [heq]
      refine SN_append (h e (by simp)) (SN_append ?_ (ih ?_))
      · exact SN_of_all_plain (by intro c hc; fin_cases hc <;> refine ⟨?_, ?_, ?_, ?_⟩ <;> decide)
      · intro x hx
        exact h x (by simp [hx])

theorem SN_serializeFields {fs : List (List Char × Json)}
    (h : ∀ p ∈ fs, SN (serialize p.2)) : SN (serializeFields fs) := by
  induction fs with
  | nil => exact SN_nil
  | cons p fs ih =>
    obtain ⟨k, v⟩ := p
    have hfield : SN ('"' :: escStr k ++ '"' :: ':' :: ' ' :: serialize v) := by
      have heq : ('"' :: escStr k ++ '"' :: ':' :: ' ' :: serialize v) =
          ('"' :: escStr k ++ ['"']) ++ ([':', ' '] ++ serialize v) := by
        simp
      rw [heq]
      refine SN_append (SN_quoted k) (SN_append ?_ (h (k, v) (by simp)))
      exact SN_of_all_plain (by intro c hc; fin_cases hc <;> refine ⟨?_, ?_, ?_, ?_⟩ <;> decide)
    cases fs with
    | nil => simpa [serializeFields] using hfield
    | cons p2 fs' =>
      have heq : serializeFields ((k, v) :: p2 :: fs') =
          ('"' :: escStr k ++ '"' :: ':' :: ' ' :: serialize v) ++
            ([',', ' '] ++ serializeFields (p2 :: fs')) := by
        simp [serializeFields]
      rw [heq]
      refine SN_append hfield (SN_append ?_ (ih ?_))
      · exact SN_of_all_plain (by intro c hc; fin_cases hc <;> refine ⟨?_, ?_, ?_, ?_⟩ <;> decide)
      · intro x hx
        exact h x (by simp [hx])

theorem SN_serialize_aux : ∀ (n : Nat) (v : Json), sizeOf v ≤ n → SN (serialize v) := by
  intro n
  induction n with
  | zero =>
    intro v hv
    exact absurd hv (by cases v <;> simp)
  | succ n ih =>
    intro v hv
    cases v with
    | null =>
      exact SN_of_all_plain (by intro c hc; fin_cases hc <;> refine ⟨?_, ?_, ?_, ?_⟩ <;> decide)
    | jbool b =>
      cases b <;>
        exact SN_of_all_plain (by intro c hc; fin_cases hc <;> refine ⟨?_, ?_, ?_, ?_⟩ <;> decide)
    | jnum m => exact SN_intChars m
    | jstr s => exact SN_quoted s
    | jarr es =>
      have hes : ∀ e ∈ es, SN (serialize e) := by
        intro e he
        refine ih e ?_
        have h1 := List.sizeOf_lt_of_mem he
        have h2 : sizeOf (Json.jarr es) = 1 + sizeOf es := by simp
        omega
      have heq : serialize (Json.jarr es) = ['['] ++ (serializeList es ++ [']']) := by
        simp [serialize]
      rw [heq]
      refine SN_append ?_ (SN_append (SN_serializeList hes) ?_)
      · exact SN_of_all_plain (by intro c hc; fin_cases hc <;> refine ⟨?_, ?_, ?_, ?_⟩ <;> decide)
      · exact SN_of_all_plain (by intro c hc; fin_cases hc <;> refine ⟨?_, ?_, ?_, ?_⟩ <;> decide)
    | jobj fs =>
      have hfs : ∀ p ∈ fs, SN (serialize p.2) := by
        intro p hp
        refine ih p.2 ?_
        have h1 := List.sizeOf_lt_of_mem hp
        have h2 : sizeOf (Json.jobj fs) = 1 + sizeOf fs := by simp
        have h3 : sizeOf p.2 < sizeOf p := by
          obtain ⟨a, b⟩ := p
          simp only [Prod.mk.sizeOf_spec]
          omega
        omega
      exact SN_braced (SN_serializeFields hfs)

theorem SN_serialize (v : Json) : SN (serialize v) :=
  SN_serialize_aux (sizeOf v) v le_rfl

/-- Scanning a serialized object from depth 0 breaks exactly at its final
closing brace: neither early nor late. -/
theorem braceScan_obj (fs : List (List Char × Json)) (rest : List Char) (i : Nat) :
    braceScan (serialize (Json.jobj fs) ++ rest) 0 false false i =
      Sum.inr (i + (serialize (Json.jobj fs)).length) := by
  have hin : SN (serializeFields fs) :=
    SN_serializeFields fun p hp => SN_serialize p.2
  have heq : serialize (Json.jobj fs) = '\x7b' :: serializeFields fs ++ ['\x7d'] := by
    simp [serialize]
  rw [heq]
  have h1 : braceScan (('\x7b' :: serializeFields fs ++ ['\x7d']) ++ rest) 0 false false i =
      braceScan ((serializeFields fs ++ ['\x7d']) ++ rest) 1 false false (i + 1) := by
    simp [braceScan]
  rw [h1, List.append_assoc, hin (['\x7d'] ++ rest) 1 (i + 1) (by omega)]
  have h2 : braceScan (['\x7d'] ++ rest) 1 false false
        (i + 1 + (serializeFields fs).length) =
      Sum.inr (i + 1 + (serializeFields fs).length + 1) := by
    simp [braceScan]
  rw [h2]
  congr 1
  simp
  omega

theorem firstBraceIdx_of_clean {p1 rest : List Char} (h : '\x7b' ∉ p1) :
    firstBraceIdx (p1 ++ '\x7b' :: rest) = some p1.length := by
  induction p1 with
  | nil => simp [firstBraceIdx, List.findIdx?]
  | cons c cs ih =>
    have hc : ¬(c = '\x7b') := fun hcc => h (by simp [hcc])
    have hcs : '\x7b' ∉ cs := fun hx => h (by simp [hx])
    simp only [List.cons_append, firstBraceIdx, List.findIdx?] at *
    simp [hc, ih hcs]

/-- Brace-matching extraction recovers a serialized JSON object embedded in
prose exactly, provided the leading prose contains no opening brace. -/
theorem extractCandidate_embedded (fs : List (List Char × Json)) (p1 p2 : List Char)
    (h : '\x7b' ∉ p1) :
    extractCandidate (p1 ++ serialize (Json.jobj fs) ++ p2) =
      some (serialize (Json.jobj fs)) := by
  have hobj : serialize (Json.jobj fs) =
      '\x7b' :: (serializeFields fs ++ ['\x7d']) := by
    simp [serialize]
  have hidx : firstBraceIdx (p1 ++ serialize (Json.jobj fs) ++ p2) =
      some p1.length := by
    conv_lhs => rw [hobj]
    have heq : p1 ++ ('\x7b' :: (serializeFields fs ++ ['\x7d'])) ++ p2 =
        p1 ++ '\x7b' :: ((serializeFields fs ++ ['\x7d']) ++ p2) := by
      simp
    rw [heq]
    exact firstBraceIdx_of_clean h
  have hdrop : (p1 ++ serialize (Json.jobj fs) ++ p2).drop p1.length =
      serialize (Json.jobj fs) ++ p2 := by
    rw [List.append_assoc]
    exact List.drop_left _ _
  unfold extractCandidate
  rw [hidx]
  simp only [hdrop, braceScan_obj fs p2 0, Nat.zero_add]
  rw [List.take_left]

/-!
Section: Python values and `json.loads`

`PyVal` models the loosely-typed values flowing through the validator:
strings, ints, bools, `None`, lists and (string-keyed) dicts.  JSON floats
are carried opaquely by their lexeme (`pfloat`); the validator never looks
inside a number.
-/
inductive PyVal where
  | pstr (s : List Char) : PyVal
  | pint (n : Int) : PyVal
  | pfloat (lexeme : List Char) : PyVal
  | pbool (b : Bool) : PyVal
  | pnone : PyVal
  | plist (xs : List PyVal) : PyVal
  | pdict (fs : List (List Char × PyVal)) : PyVal

/-- Association-list model of a Python dict. -/
abbrev PyDict := List (List Char × PyVal)

/-- `d.get(k, dflt)`. -/
def dget (d : PyDict) (k : List Char) (dflt : PyVal) : PyVal :=
  match d.find? (fun p => p.1 == k) with
  | some p => p.2
  | none => dflt

/-- `k in d` lookup without a default. -/
def dlookup (d : PyDict) (k : List Char) : Option PyVal :=
  (d.find? (fun p => p.1 == k)).map (·.2)

/-- JSON whitespace. -/
def isJsonWs (c : Char) : Bool :=
  c = ' ' || c = '\t' || c = '\n' || c = '\x0d'

def skipWs (s : List Char) : List Char :=
  s.dropWhile isJsonWs

/-- Value of a hex digit. -/
def hexVal (c : Char) : Option Nat :=
  if c.isDigit then some (c.toNat - 48)
  else if 'a' ≤ c && c ≤ 'f' then some (c.toNat - 87)
  else if 'A' ≤ c && c ≤ 'F' then some (c.toNat - 55)
  else none

/-- One-character JSON escapes. -/
def jsonEsc (c : Char) : Option Char :=
  if c = '"' then some '"'
  else if c = '\\' then some '\\'
  else if c = '/' then some '/'
  else if c = 'b' then some '\x08'
  else if c = 'f' then some '\x0c'
  else if c = 'n' then some '\n'
  else if c = 'r' then some '\x0d'
  else if c = 't' then some '\t'
  else none

/-- Parse a JSON string body (the opening quote already consumed); returns
the decoded body and the rest after the closing quote.  Mirrors the strict
`json.loads` lexer: unterminated strings, bad escapes and raw control
characters fail. -/
def parseJStr : List Char → Option (List Char × List Char)
  | [] => none
  | c :: rest =>
    if c = '"' then some ([], rest)
    else if c = '\\' then
      match rest with
      | [] => none
      | 'u' :: h1 :: h2 :: h3 :: h4 :: rest2 =>
        match hexVal h1, hexVal h2, hexVal h3, hexVal h4 with
        | some a, some b, some cc, some d =>
          (parseJStr rest2).map fun p =>
            (Char.ofNat (((a * 16 + b) * 16 + cc) * 16 + d) :: p.1, p.2)
        | _, _, _, _ => none
      | e :: rest2 =>
        match jsonEsc e with
        | some ch => (parseJStr rest2).map fun p => (ch :: p.1, p.2)
        | none => none
    else if c.toNat < 32 then none
    else (parseJStr rest).map fun p => (c :: p.1, p.2)

/-- Parse a JSON number token; integer values are kept exactly, any value
with a fraction or exponent is carried opaquely as `pfloat`. -/
def parseNum (s : List Char) : Option (PyVal × List Char) :=
  let (neg, s1) := match s with
    | '-' :: r => (true, r)
    | _ => (false, s)
  let ds := s1.takeWhile Char.isDigit
  let r1 := s1.dropWhile Char.isDigit
  if ds = [] then none
  else
    let intAbs : Nat := ds.foldl (fun acc c => acc * 10 + (c.toNat - 48)) 0
    match r1 with
    | '.' :: r2 =>
      let fs := r2.takeWhile Char.isDigit
      let r3 := r2.dropWhile Char.isDigit
      if fs = [] then none
      else
        match r3 with
        | e :: r4 =>
          if e = 'e' || e = 'E' then
            let (r5) := match r4 with
              | '-' :: r => r
              | '+' :: r => r
              | r => r
            let es := r5.takeWhile Char.isDigit
            let r6 := r5.dropWhile Char.isDigit
            if es = [] then none
            else some (PyVal.pfloat (s.take (s.length - r6.length)), r6)
          else some (PyVal.pfloat (s.take (s.length - r3.length)), r3)
        | [] => some (PyVal.pfloat (s.take (s.length - r3.length)), r3)
    | e :: r2 =>
      if e = 'e' || e = 'E' then
        let (r3) := match r2 with
          | '-' :: r => r
          | '+' :: r => r
          | r => r
        let es := r3.takeWhile Char.isDigit
        let r4 := r3.dropWhile Char.isDigit
        if es = [] then none
        else some (PyVal.pfloat (s.take (s.length - r4.length)), r4)
      else
        some (PyVal.pint (if neg then -(intAbs : Int) else (intAbs : Int)), r1)
    | [] => some (PyVal.pint (if neg then -(intAbs : Int) else (intAbs : Int)), [])

/-- Python-dict insertion: a repeated key keeps its original position but
takes the new value. -/
def dictInsert (acc : PyDict) (k : List Char) (v : PyVal) : PyDict :=
  if acc.any (fun p => p.1 == k) then
    acc.map fun p => if p.1 == k then (k, v) else p
  else acc ++ [(k, v)]

mutual

/-- Parse one JSON value (fuel-indexed recursive descent). -/
def parseVal : Nat → List Char → Option (PyVal × List Char)
  | 0, _ => none
  | Nat.succ fuel, s =>
    match skipWs s with
    | [] => none
    | c :: rest =>
      if c = '\x7b' then parseObjBody fuel rest
      else if c = '[' then parseArrBody fuel rest
      else if c = '"' then (parseJStr rest).map fun p => (PyVal.pstr p.1, p.2)
      else if c = 't' then
        match rest with
        | 'r' :: 'u' :: 'e' :: r => some (PyVal.pbool true, r)
        | _ => none
      else if c = 'f' then
        match rest with
        | 'a' :: 'l' :: 's' :: 'e' :: r => some (PyVal.pbool false, r)
        | _ => none
      else if c = 'n' then
        match rest with
        | 'u' :: 'l' :: 'l' :: r => some (PyVal.pnone, r)
        | _ => none
      else parseNum (c :: rest)

/-- Parse an object body, the opening brace already consumed. -/
def parseObjBody : Nat → List Char → Option (PyVal × List Char)
  | 0, _ => none
  | Nat.succ fuel, s =>
    match skipWs s with
    | '\x7d' :: r => some (PyVal.pdict [], r)
    | '"' :: r =>
      match parseJStr r with
      | none => none
      | some (k, r2) =>
        match skipWs r2 with
        | ':' :: r3 =>
          match parseVal fuel r3 with
          | none => none
          | some (v, r4) => parseObjTail fuel [(k, v)] r4
        | _ => none
    | _ => none

/-- Parse the remaining `, "k": v` pairs of an object. -/
def parseObjTail : Nat → PyDict → List Char → Option (PyVal × List Char)
  | 0, _, _ => none
  | Nat.succ fuel, acc, s =>
    match skipWs s with
    | '\x7d' :: r => some (PyVal.pdict acc, r)
    | ',' :: r =>
      match skipWs r with
      | '"' :: r1 =>
        match parseJStr r1 with
        | none => none
        | some (k, r2) =>
          match skipWs r2 with
          | ':' :: r3 =>
            match parseVal fuel r3 with
            | none => none
            | some (v, r4) => parseObjTail fuel (dictInsert acc k v) r4
          | _ => none
      | _ => none
    | _ => none

/-- Parse an array body, the opening bracket already consumed. -/
def parseArrBody : Nat → List Char → Option (PyVal × List Char)
  | 0, _ => none
  | Nat.succ fuel, s =>
    match skipWs s with
    | ']' :: r => some (PyVal.plist [], r)
    | _ =>
      match parseVal fuel s with
      | none => none
      | some (v, r) => parseArrTail fuel [v] r

/-- Parse the remaining `, v` elements of an array. -/
def parseArrTail : Nat → List PyVal → List Char → Option (PyVal × List Char)
  | 0, _, _ => none
  | Nat.succ fuel, acc, s =>
    match skipWs s with
    | ']' :: r => some (PyVal.plist acc, r)
    | ',' :: r =>
      match parseVal fuel r with
      | none => none
      | some (v, r2) => parseArrTail fuel (acc ++ [v]) r2
    | _ => none

end

/-- Model of `json.loads`: parse one value and require only whitespace after
it. -/
def jsonLoads (s : List Char) : Option PyVal :=
  match parseVal (2 * s.length + 4) s with
  | some (v, rest) => if skipWs rest = [] then some v else none
  | none => none

/-!
Section: `Summarizer._validate_and_clean_json`

The validator never recurses: it walks a fixed shape (key_points list,
summary string, title string, sections → content → items).  `Except Unit`
carries the one way it can blow up: calling `.strip()` on a non-string
(Python `AttributeError`).
-/

/-- The single-quote character (written via its code point). -/
def squote : Char := Char.ofNat 39

/-- Python `repr` escaping for a chosen quote character. -/
def reprEsc (q : Char) (s : List Char) : List Char :=
  s.flatMap fun c =>
    if c = '\\' || c = q then ['\\', c]
    else if c = '\n' then ['\\', 'n']
    else if c = '\x0d' then ['\\', 'r']
    else if c = '\t' then ['\\', 't']
    else [c]

/-- Python `repr` of a string: single-quoted unless the content holds a
single quote and no double quote. -/
def pyReprQuote (s : List Char) : List Char :=
  if squote ∈ s ∧ '"' ∉ s then '"' :: reprEsc '"' s ++ ['"']
  else squote :: reprEsc squote s ++ [squote]

mutual

/-- Python `repr(v)`. -/
def pyRepr : PyVal → List Char
  | PyVal.pstr s => pyReprQuote s
  | PyVal.pint n => intChars n
  | PyVal.pfloat l => l
  | PyVal.pbool true => ['T', 'r', 'u', 'e']
  | PyVal.pbool false => ['F', 'a', 'l', 's', 'e']
  | PyVal.pnone => ['N', 'o', 'n', 'e']
  | PyVal.plist xs => '[' :: pyReprList xs ++ [']']
  | PyVal.pdict fs => '\x7b' :: pyReprFields fs ++ ['\x7d']

def pyReprList : List PyVal → List Char
  | [] => []
  | [v] => pyRepr v
  | v :: v2 :: vs => pyRepr v ++ ',' :: ' ' :: pyReprList (v2 :: vs)

def pyReprFields : PyDict → List Char
  | [] => []
  | [(k, v)] => pyReprQuote k ++ ':' :: ' ' :: pyRepr v
  | (k, v) :: f2 :: fs =>
    (pyReprQuote k ++ ':' :: ' ' :: pyRepr v) ++ ',' :: ' ' :: pyReprFields (f2 :: fs)

end

/-- Python `str(v)`. -/
def pyStr : PyVal → List Char
  | PyVal.pstr s => s
  | v => pyRepr v

/-- `re.findall(r'"([^"]+)"', s)`: the contents of each non-empty quoted
run, scanning left to right.  (Fuel-indexed so the kernel can evaluate it;
each step consumes at least one character, so `s.length` steps suffice.) -/
def findQuotedAux : Nat → List Char → List (List Char)
  | 0, _ => []
  | _, [] => []
  | Nat.succ fuel, c :: rest =>
    if c = '"' then
      match rest.dropWhile (· ≠ '"') with
      | '"' :: rest2 =>
        if rest.takeWhile (· ≠ '"') = [] then findQuotedAux fuel rest
        else rest.takeWhile (· ≠ '"') :: findQuotedAux fuel rest2
      | _ => []
    else findQuotedAux fuel rest

def findQuoted (s : List Char) : List (List Char) :=
  findQuotedAux s.length s

/-- `re.sub(r'^\d+[\.、]\s*', '', s)`: strip one leading numeric enumeration
marker. -/
def stripNumMarker (s : List Char) : List Char :=
  let ds := s.takeWhile Char.isDigit
  if ds = [] then s
  else
    match s.dropWhile Char.isDigit with
    | c :: r => if c = '.' || c = '、' then r.dropWhile isPySpace else s
    | [] => s

/-- `re.sub(r'\.(md|txt)$', '', s)`: strip one trailing `.md`/`.txt`. -/
def stripExtension (s : List Char) : List Char :=
  if ".md".toList.isSuffixOf s then s.take (s.length - 3)
  else if ".txt".toList.isSuffixOf s then s.take (s.length - 4)
  else s

/-- The filesystem-unsafe characters of `re.sub(r'[<>:"/\\|?*]', '_', ·)`. -/
def isUnsafeCh (c : Char) : Bool :=
  c = '<' || c = '>' || c = ':' || c = '"' || c = '/' || c = '\\' ||
    c = '|' || c = '?' || c = '*'

def replaceUnsafe (s : List Char) : List Char :=
  s.map fun c => if isUnsafeCh c then '_' else c

/-- `re.search(r'\[(.*)\]', s, re.DOTALL)`: the greedy group spans from the
first `[` to the last `]`. -/
def bracketInner (s : List Char) : Option (List Char) :=
  match s.findIdx? (· = '['), s.reverse.findIdx? (· = ']') with
  | some i, some jr =>
    let j := s.length - 1 - jr
    if i < j then some ((s.take j).drop (i + 1)) else none
  | _, _ => none

/-- `re.search(r'\x7b.*\x7d', s, re.DOTALL).group(0)`: from the first
opening to the last closing brace, inclusive. -/
def braceFull (s : List Char) : Option (List Char) :=
  match s.findIdx? (· = '\x7b'), s.reverse.findIdx? (· = '\x7d') with
  | some i, some jr =>
    let j := s.length - 1 - jr
    if i < j then some ((s.take (j + 1)).drop i) else none
  | _, _ => none

def labelsList : List (List Char) :=
  ["key_points".toList, "summary".toList, "title".toList]

/-- Normal-branch cleaning of one key point:
`point.strip().strip(chr(34)).strip(chr(39))` then the numeric-marker sub. -/
def pointClean (p : List Char) : List Char :=
  stripNumMarker (stripCh squote (stripCh '"' (pstrip p)))

/-- The stringified-JSON test routing a key point into the recovery branch. -/
def malformedTrigger (p : List Char) : Bool :=
  startsWithL "\"key_points\"".toList (pstrip p) ||
    startsWithL "\"summary\"".toList (pstrip p) ||
    startsWithL "\x7b".toList (pstrip p)

/-- The entries one raw `key_points` element contributes. -/
def entriesOf (point : PyVal) : List (List Char) :=
  match point with
  | PyVal.pstr p =>
    let ps := pstrip p
    if malformedTrigger p then
      let ms := findQuoted p
      if ms ≠ [] ∧ ms.length > 1 then
        ms.filterMap fun m =>
          if m ∈ labelsList then none
          else if (pstrip m).length > 5 then some (stripNumMarker (pstrip m))
          else none
      else []
    else if startsWithL "[".toList ps || startsWithL "\x7b".toList ps then []
    else
      let cp := pointClean p
      if cp ≠ [] ∧ cp.length > 5 then [cp] else []
  | _ => []

def cleanPointsList : List PyVal → List (List Char)
  | [] => []
  | p :: ps => entriesOf p ++ cleanPointsList ps

/-- The cleaned key-point list (before the `[:7]` cap). -/
def cleanPoints (v : PyVal) : List (List Char) :=
  match v with
  | PyVal.plist xs => cleanPointsList xs
  | _ => []

def summaryLead : List Char := "本视频主要讨论了以下内容：".toList

def summaryDefault : List Char := "视频内容总结。".toList

def joinSep (sep : Char) (xs : List (List Char)) : List Char :=
  List.intercalate [sep] xs

def isStrB : PyVal → Bool
  | PyVal.pstr _ => true
  | _ => false

def strOf : PyVal → List Char
  | PyVal.pstr s => s
  | _ => []

/-- The `startswith(chr(34) + "key_points" + chr(34))` summary branch:
extract the bracketed array, re-parse it, and synthesize a summary from the
first three entries; any exception falls back to the cleaned points. -/
def summaryBranchKP (sum : List Char) (cleanedPoints : List (List Char)) : List Char :=
  let exceptFallback :=
    if cleanedPoints ≠ [] then
      summaryLead ++ joinSep '；' (cleanedPoints.take 3) ++ "。".toList
    else []
  match bracketInner sum with
  | some inner =>
    match jsonLoads ('[' :: inner ++ [']']) with
    | some (PyVal.plist es) =>
      if !es.isEmpty then
        if (es.take 3).all isStrB then
          summaryLead ++ joinSep '；' ((es.take 3).map fun e => stripCh '"' (strOf e))
            ++ "。".toList
        else exceptFallback
      else sum
    | some _ => sum
    | none => exceptFallback
  | none => sum

/-- The `startswith(chr(34) + "summary" + chr(34))` / `startswith(chr(123))`
summary branch: re-parse the brace group and read its `summary` field; the
result may be any value, and any exception yields the first plain sentence. -/
def summaryBranchObj (sum : List Char) : PyVal :=
  let exceptFallback : PyVal :=
    let sentences := ((splitOnCh '.' sum).map pstrip).filter fun t =>
      !t.isEmpty && !startsWithL "\"".toList t
    PyVal.pstr (match sentences with | t :: _ => t | [] => [])
  match braceFull sum with
  | some matched =>
    match jsonLoads matched with
    | some (PyVal.pdict d) => dget d "summary".toList (PyVal.pstr [])
    | some _ => exceptFallback
    | none => exceptFallback
  | none => PyVal.pstr sum

/-- The final defaulting step: an empty or quote-leading summary is replaced
by a synthesis from the cleaned points, or the fixed literal. -/
def summaryFinalize (s : List Char) (cleanedPoints : List (List Char)) : List Char :=
  if s = [] ∨ startsWithL "\"".toList s then
    if cleanedPoints ≠ [] then
      summaryLead ++ joinSep '；' (cleanedPoints.take 3) ++ "。".toList
    else summaryDefault
  else s

/-- Cleaning of the `summary` field. -/
def cleanSummaryVal (v : PyVal) (cleanedPoints : List (List Char)) :
    Except Unit (List Char) :=
  match v with
  | PyVal.pstr sum =>
    let sp := pstrip sum
    if startsWithL "\"key_points\"".toList sp && sum.contains '[' then
      Except.ok (summaryFinalize (pstrip (summaryBranchKP sum cleanedPoints)) cleanedPoints)
    else if startsWithL "\"summary\"".toList sp || startsWithL "\x7b".toList sp then
      match summaryBranchObj sum with
      | PyVal.pstr s => Except.ok (summaryFinalize (pstrip s) cleanedPoints)
      | _ => Except.error ()
    else Except.ok (summaryFinalize (pstrip sum) cleanedPoints)
  | _ => Except.ok (summaryFinalize (pstrip (pyStr v)) cleanedPoints)

/-- Cleaning of the `title` field value, including the `or` default; the
key-point override is applied afterwards by `validateAndClean`. -/
def titleFieldClean (v : PyVal) : List Char :=
  match v with
  | PyVal.pstr t0 =>
    let t1 := stripCh squote (stripCh '"' (pstrip t0))
    let t2 := stripExtension t1
    let t3 := replaceUnsafe t2
    let t4 := if t3.length > 100 then t3.take 100 else t3
    let t5 := pstrip t4
    if t5 = [] then "video_notes".toList else t5
  | _ => "video_notes".toList

structure CleanedItem where
  sub_heading : Option (List Char)
  details : Option (List Char)
  deriving DecidableEq, Repr

structure CleanedSection where
  heading : Option (List Char)
  content : List CleanedItem
  deriving DecidableEq, Repr

structure OldSub where
  title : Option (List Char)
  content : Option (List Char)
  deriving DecidableEq, Repr

structure OldSection where
  title : Option (List Char)
  content : Option (List Char)
  subsections : List OldSub
  deriving DecidableEq, Repr

structure CleanedData where
  key_points : List (List Char)
  summary : List Char
  title : List Char
  detailed_content : Option (List CleanedSection)
  sections : Option (List OldSection)
  deriving DecidableEq, Repr

/-- `d.get(k, <empty str>).strip()`: a present non-string value raises. -/
def getStripped (d : PyDict) (k : List Char) : Except Unit (List Char) :=
  match dget d k (PyVal.pstr []) with
  | PyVal.pstr s => Except.ok (pstrip s)
  | _ => Except.error ()

/-- Monadic filter-map preserving the loop's left-to-right error order. -/
def listFilterMapE {α β : Type} (f : α → Except Unit (Option β)) :
    List α → Except Unit (List β)
  | [] => Except.ok []
  | x :: xs =>
    match f x with
    | Except.error e => Except.error e
    | Except.ok r =>
      match listFilterMapE f xs with
      | Except.error e => Except.error e
      | Except.ok rs =>
        Except.ok (match r with
          | some b => b :: rs
          | none => rs)

/-- One `content` item of a `detailed_content` section. -/
def cleanItem (iv : PyVal) : Except Unit (Option CleanedItem) :=
  match iv with
  | PyVal.pdict idict =>
    match getStripped idict "sub_heading".toList with
    | Except.error e => Except.error e
    | Except.ok sub =>
      match getStripped idict "details".toList with
      | Except.error e => Except.error e
      | Except.ok det =>
        let item : CleanedItem :=
          ⟨if sub ≠ [] then some sub else none, if det ≠ [] then some det else none⟩
        Except.ok (if item.sub_heading.isSome || item.details.isSome then some item else none)
  | _ => Except.ok none

/-- One `detailed_content` section; retained exactly when it keeps at least
one cleaned content item. -/
def cleanSection (sv : PyVal) : Except Unit (Option CleanedSection) :=
  match sv with
  | PyVal.pdict sd =>
    match getStripped sd "heading".toList with
    | Except.error e => Except.error e
    | Except.ok heading =>
      match
        (match dget sd "content".toList (PyVal.plist []) with
         | PyVal.plist is => listFilterMapE cleanItem is
         | _ => Except.ok []) with
      | Except.error e => Except.error e
      | Except.ok items =>
        Except.ok (if items ≠ [] then
          some ⟨if heading ≠ [] then some heading else none, items⟩
        else none)
  | _ => Except.ok none

def cleanOldSub (sv : PyVal) : Except Unit (Option OldSub) :=
  match sv with
  | PyVal.pdict sd =>
    match getStripped sd "title".toList with
    | Except.error e => Except.error e
    | Except.ok t =>
      match getStripped sd "content".toList with
      | Except.error e => Except.error e
      | Except.ok c =>
        let sub : OldSub :=
          ⟨if t ≠ [] then some t else none, if c ≠ [] then some c else none⟩
        Except.ok (if sub.title.isSome || sub.content.isSome then some sub else none)
  | _ => Except.ok none

def cleanOldSection (sv : PyVal) : Except Unit (Option OldSection) :=
  match sv with
  | PyVal.pdict sd =>
    match getStripped sd "title".toList with
    | Except.error e => Except.error e
    | Except.ok t =>
      match getStripped sd "content".toList with
      | Except.error e => Except.error e
      | Except.ok c =>
        match
          (match dget sd "subsections".toList (PyVal.plist []) with
           | PyVal.plist is => listFilterMapE cleanOldSub is
           | _ => Except.ok []) with
        | Except.error e => Except.error e
        | Except.ok subs =>
          let sec : OldSection :=
            ⟨if t ≠ [] then some t else none, if c ≠ [] then some c else none, subs⟩
          Except.ok (if sec.title.isSome || sec.content.isSome || subs ≠ [] then
            some sec
          else none)
  | _ => Except.ok none

/-- The fallback replacing an empty or defaulted cleaned title by the first
cleaned key point, truncated to 50 characters, with slashes and backslashes
replaced. -/
def titleOverride (tfc : List Char) (pts : List (List Char)) : List Char :=
  if tfc = [] ∨ tfc = "video_notes".toList then
    match pts with
    | p :: _ => (p.take 50).map fun c => if c = '/' || c = '\\' then '_' else c
    | [] => "video_notes".toList
  else tfc

/-- The cleaned key points of a payload (before the cap at 7). -/
def dataPoints (data : PyDict) : List (List Char) :=
  cleanPoints (dget data "key_points".toList (PyVal.plist []))

/-- The final title of a payload. -/
def dataTitle (data : PyDict) : List Char :=
  titleOverride
    (titleFieldClean (dget data "title".toList (PyVal.pstr "video_notes".toList)))
    (dataPoints data)

/-- The `detailed_content` cleaning pass of a payload. -/
def dataDetailed (data : PyDict) : Except Unit (List CleanedSection) :=
  match dget data "detailed_content".toList (PyVal.plist []) with
  | PyVal.plist xs => listFilterMapE cleanSection xs
  | _ => Except.ok []

/-- The legacy `sections` cleaning pass of a payload. -/
def dataOldSections (data : PyDict) : Except Unit (List OldSection) :=
  match dget data "sections".toList (PyVal.plist []) with
  | PyVal.plist xs => listFilterMapE cleanOldSection xs
  | _ => Except.ok []

/-- Embedding of `Summarizer._validate_and_clean_json`. -/
def validateAndClean (data : PyDict) : Except Unit CleanedData :=
  match cleanSummaryVal (dget data "summary".toList (PyVal.pstr [])) (dataPoints data) with
  | Except.error e => Except.error e
  | Except.ok summary =>
    match dataDetailed data with
    | Except.error e => Except.error e
    | Except.ok dcList =>
      if dcList ≠ [] then
        Except.ok { key_points := (dataPoints data).take 7, summary := summary,
                    title := dataTitle data,
                    detailed_content := some dcList, sections := none }
      else
        match dataOldSections data with
        | Except.error e => Except.error e
        | Except.ok secs =>
          Except.ok { key_points := (dataPoints data).take 7, summary := summary,
                      title := dataTitle data,
                      detailed_content := none,
                      sections := if secs ≠ [] then some secs else none }

/-!
Section: `Summarizer._parse_text_response` and the extraction pipeline
-/

/-- `re.sub(r'^[-*•]\s*', '', line)`. -/
def stripBullet (l : List Char) : List Char :=
  match l with
  | c :: r => if c = '-' || c = '*' || c = '•' then r.dropWhile isPySpace else l
  | [] => l

/-- `re.sub(r'^(title|filename):\s*', '', line, flags=re.IGNORECASE)`. -/
def stripTitleTag (l : List Char) : List Char :=
  if startsWithL "title:".toList (lowerL l) then (l.drop 6).dropWhile isPySpace
  else if startsWithL "filename:".toList (lowerL l) then (l.drop 9).dropWhile isPySpace
  else l

/-- The loop state of `_parse_text_response`. -/
structure TextParseState where
  summary : List Char
  key_points : List (List Char)
  title : List Char
  currentSection : Option Nat

/-- One line of the `_parse_text_response` loop. -/
def textLineStep (st : TextParseState) (line : List Char) : TextParseState :=
  let l := pstrip line
  if l = [] then st
  else
    let low := lowerL l
    if containsSub "summary".toList low then { st with currentSection := some 0 }
    else if containsSub "key points".toList low ||
        containsSub "bullet points".toList low then { st with currentSection := some 1 }
    else if containsSub "title".toList low || containsSub "filename".toList low then
      { st with currentSection := some 2 }
    else
      match st.currentSection with
      | some 0 =>
        if st.summary = [] then { st with summary := l }
        else { st with summary := st.summary ++ ' ' :: l }
      | some 1 =>
        let cp := pstrip (stripBullet l)
        if cp ≠ [] then { st with key_points := st.key_points ++ [cp] } else st
      | some 2 =>
        if st.title = [] ∨ st.title = "video_notes".toList then
          { st with title := pstrip (stripTitleTag l) }
        else st
      | _ => st

/-- Embedding of `Summarizer._parse_text_response`. -/
def parseTextResponse (content : List Char) : CleanedData :=
  let st0 : TextParseState := ⟨[], [], "video_notes".toList, none⟩
  let st := (splitOnCh '\n' (pstrip content)).foldl textLineStep st0
  let kps :=
    if st.key_points = [] ∧ st.summary ≠ [] then
      (((splitOnCh '.' st.summary).map pstrip).filter (· ≠ [])).take 3
    else st.key_points
  { key_points := kps.take 5, summary := st.summary,
    title := if st.title = [] then "video_notes".toList else st.title,
    detailed_content := none, sections := none }

/-- The JSON-content selection of `generate_summary` (strategy 1 plus the
truncation repair): the string handed to the final `json.loads`, if any. -/
def extractStage (content : List Char) : Option (List Char) :=
  match firstBraceIdx content with
  | none => none
  | some start =>
    match braceScan (content.drop start) 0 false false 0 with
    | Sum.inr endPos =>
      if (jsonLoads ((content.drop start).take endPos)).isSome then
        some ((content.drop start).take endPos)
      else none
    | Sum.inl cnt =>
      if cnt > 0 then
        if (jsonLoads (content.drop start ++ List.replicate cnt.toNat '\x7d')).isSome then
          some (content.drop start ++ List.replicate cnt.toNat '\x7d')
        else none
      else none

/-- The failure modes `generate_summary` reports after extraction. -/
inductive SummErr where
  | missingContent : SummErr
  | noKeyPoints : SummErr
  | validationError : SummErr
  deriving DecidableEq, Repr

/-- The pure post-response tail of `Summarizer.generate_summary`: extraction,
parse, validation (or the text fallback), and the required-content checks. -/
def processContent (content : List Char) : Except SummErr CleanedData :=
  let step : Except SummErr CleanedData :=
    match extractStage content with
    | some jc =>
      match jsonLoads jc with
      | some (PyVal.pdict d) =>
        match validateAndClean d with
        | Except.ok r => Except.ok r
        | Except.error _ => Except.error SummErr.validationError
      | _ => Except.ok (parseTextResponse content)
    | none => Except.ok (parseTextResponse content)
  match step with
  | Except.error e => Except.error e
  | Except.ok data =>
    if data.detailed_content = none ∧ data.sections = none ∧ data.summary = [] then
      Except.error SummErr.missingContent
    else if data.key_points = [] then
      Except.error SummErr.noKeyPoints
    else
      Except.ok data

/-!
Section: `VideoProcessor` (scripts/core/video_processor.py) and the cleanup block
of `process_video` (scripts/process_video.py)
-/

/-- The exception classes of scripts/core/exceptions.py. -/
inductive ErrKind where
  | videoDownload : ErrKind
  | audioExtraction : ErrKind
  | transcription : ErrKind
  | summarization : ErrKind
  | fileOperation : ErrKind
  | configuration : ErrKind
  deriving DecidableEq, Repr

/-- The messages `extract_audio` attaches to an `AudioExtractionError`. -/
inductive AudioMsg where
  | videoNotFound : AudioMsg
  | timedOut30s : AudioMsg
  | spawnFailed : AudioMsg
  | exitCode (rc : Int) : AudioMsg
  | noOutputFile : AudioMsg
  deriving DecidableEq, Repr

/-- Observable behavior of the ffmpeg subprocess for one run: it either
finishes after `duration` seconds with an exit code, creating the output
file or not, or fails to spawn. -/
inductive FfmpegRun where
  | completes (duration : Nat) (rc : Int) (outputCreated : Bool) : FfmpegRun
  | spawnFails : FfmpegRun
  deriving DecidableEq, Repr

instance exceptDecEq {ε α : Type} [DecidableEq ε] [DecidableEq α] :
    DecidableEq (Except ε α) := fun a b =>
  match a, b with
  | Except.ok x, Except.ok y =>
    if h : x = y then isTrue (by rw [h]) else isFalse (by intro hh; cases hh; exact h rfl)
  | Except.error x, Except.error y =>
    if h : x = y then isTrue (by rw [h]) else isFalse (by intro hh; cases hh; exact h rfl)
  | Except.ok _, Except.error _ => isFalse (by intro hh; cases hh)
  | Except.error _, Except.ok _ => isFalse (by intro hh; cases hh)

structure ExtractAudioResult where
  outcome : Except (ErrKind × AudioMsg) Unit
  killed : Bool
  deriving DecidableEq, Repr

/-- The `timeout=30` of the `asyncio.wait_for` around `process.wait()`. -/
def audioTimeoutSeconds : Nat := 30

/-- Embedding of `VideoProcessor.extract_audio`: a missing input, a spawn
failure, a timeout (subprocess killed), a nonzero exit code and a missing
output file all raise `AudioExtractionError`, with distinct messages. -/
def extract_audio (videoExists : Bool) (run : FfmpegRun) : ExtractAudioResult :=
  if videoExists = false then
    ⟨Except.error (ErrKind.audioExtraction, AudioMsg.videoNotFound), false⟩
  else
    match run with
    | FfmpegRun.spawnFails =>
      ⟨Except.error (ErrKind.audioExtraction, AudioMsg.spawnFailed), false⟩
    | FfmpegRun.completes d rc created =>
      if d > audioTimeoutSeconds then
        ⟨Except.error (ErrKind.audioExtraction, AudioMsg.timedOut30s), true⟩
      else if rc ≠ 0 then
        ⟨Except.error (ErrKind.audioExtraction, AudioMsg.exitCode rc), false⟩
      else if created = false then
        ⟨Except.error (ErrKind.audioExtraction, AudioMsg.noOutputFile), false⟩
      else ⟨Except.ok (), false⟩

/-- Externally visible acquisition actions of `download_video`. -/
inductive DlEvent where
  | extractInfoNoDownload : DlEvent
  | ytdlpDownload : DlEvent
  | xhsDownload : DlEvent
  deriving DecidableEq, Repr

structure DlOutcome where
  result : Except ErrKind Unit
  events : List DlEvent
  deriving DecidableEq, Repr

/-- `settings.max_video_length` default (settings.py). -/
def defaultMaxVideoLength : Nat := 7200

/-- Embedding of `VideoProcessor.download_video`, restricted to the
duration-precheck behavior the claim is about.  `isXhs` is
`XiaohongshuDownloader.is_xiaohongshu_url(url)`; `metaDuration` is the
duration the platform metadata reports for the source.  On the yt-dlp path
metadata comes from `extract_info(url, download=False)` and the over-length
check precedes `ydl.download`; on the Xiaohongshu path the downloader
transfers the media first and the returned metadata is checked after. -/
def download_video (isXhs : Bool) (metaDuration maxLen : Nat) : DlOutcome :=
  if isXhs then
    if metaDuration > maxLen then
      ⟨Except.error ErrKind.videoDownload, [DlEvent.xhsDownload]⟩
    else ⟨Except.ok (), [DlEvent.xhsDownload]⟩
  else
    if metaDuration > maxLen then
      ⟨Except.error ErrKind.videoDownload, [DlEvent.extractInfoNoDownload]⟩
    else
      ⟨Except.ok (), [DlEvent.extractInfoNoDownload, DlEvent.ytdlpDownload]⟩

/-- A file path (list of characters, absolute when it starts with a slash). -/
abbrev FPath := List Char

/-- The working directory the process was started in. -/
def cwdPath : FPath := "/work".toList

/-- pathlib semantics: `Path(chr(39)+chr(39))` is the current directory. -/
def normPath (p : FPath) : FPath :=
  if p = [] then ['.'] else p

/-- Resolve a path against the working directory. -/
def resolvePath (p : FPath) : FPath :=
  let q := normPath p
  if q = ['.'] then cwdPath
  else if startsWithL "/".toList q then q
  else cwdPath ++ '/' :: q

/-- `f` lies strictly inside directory `dir`. -/
def isUnder (dir f : FPath) : Bool :=
  (dir ++ ['/']).isPrefixOf f

/-- One iteration of `VideoProcessor.cleanup_temp_files`: `Path(file_path)`;
if it exists, `unlink` a file, `shutil.rmtree` a directory; exceptions are
logged and swallowed.  The filesystem is the list of existing files. -/
def cleanupOne (fs : List FPath) (p : FPath) : List FPath :=
  let rp := resolvePath p
  if rp ∈ fs then fs.erase rp
  else if fs.any (isUnder rp) then fs.filter fun f => !isUnder rp f
  else fs

/-- Embedding of `VideoProcessor.cleanup_temp_files`. -/
def cleanupTempFiles (fs : List FPath) (paths : List FPath) : List FPath :=
  paths.foldl cleanupOne fs

/-- Embedding of the `finally` block of `process_video`:
`cleanup_video = video_path if video_path and not is_local_video else <empty>`,
and `cleanup_temp_files(cleanup_video, audio_path if audio_path else <empty>)`
whenever either is truthy. -/
def runCleanup (videoPath : Option FPath) (isLocalVideo : Bool)
    (audioPath : Option FPath) (fs : List FPath) : List FPath :=
  let cleanupVideo : FPath :=
    match videoPath with
    | some v => if isLocalVideo = false then v else []
    | none => []
  if cleanupVideo ≠ [] ∨ audioPath.isSome then
    cleanupTempFiles fs [cleanupVideo, audioPath.getD []]
  else fs

/-!
Section: Structural lemmas about the validator
-/

theorem pstrip_length_le (s : List Char) : (pstrip s).length ≤ s.length := by
  unfold pstrip
  have h1 := (List.dropWhile_sublist (l := s) (p := isPySpace)).length_le
  have h2 := (List.dropWhile_sublist (l := (s.dropWhile isPySpace).reverse)
    (p := isPySpace)).length_le
  simp only [List.length_reverse] at *
  omega

theorem pstrip_subset (s : List Char) : ∀ c ∈ pstrip s, c ∈ s := by
  intro c hc
  unfold pstrip at hc
  rw [List.mem_reverse] at hc
  have h1 := (List.dropWhile_sublist (l := (s.dropWhile isPySpace).reverse)
    (p := isPySpace)).subset hc
  rw [List.mem_reverse] at h1
  exact (List.dropWhile_sublist (l := s) (p := isPySpace)).subset h1

theorem replaceUnsafe_safe (s : List Char) :
    ∀ c ∈ replaceUnsafe s, isUnsafeCh c = false := by
  intro c hc
  unfold replaceUnsafe at hc
  rw [List.mem_map] at hc
  obtain ⟨a, _, ha⟩ := hc
  by_cases h : isUnsafeCh a = true
  · rw [h] at ha
    simp at ha
    rw [← ha]
    decide
  · simp only [Bool.not_eq_true] at h
    rw [h] at ha
    simp at ha
    rw [← ha]
    exact h

theorem ite_default_ne_nil {t : List Char} :
    (if t = [] then "video_notes".toList else t) ≠ [] := by
  split
  · decide
  · assumption

theorem ite_default_length {t : List Char} (ht : t.length ≤ 100) :
    (if t = [] then "video_notes".toList else t).length ≤ 100 := by
  split
  · decide
  · exact ht

theorem ite_default_safe {t : List Char} (ht : ∀ c ∈ t, isUnsafeCh c = false) :
    ∀ c ∈ (if t = [] then "video_notes".toList else t), isUnsafeCh c = false := by
  split
  · decide
  · exact ht

theorem truncate100_length (t3 : List Char) :
    ((if t3.length > 100 then t3.take 100 else t3) : List Char).length ≤ 100 := by
  split
  · simp only [List.length_take]
    omega
  · omega

theorem truncate100_subset (t3 : List Char) :
    ∀ c ∈ (if t3.length > 100 then t3.take 100 else t3), c ∈ t3 := by
  split
  · exact fun c hc => List.take_subset _ _ hc
  · exact fun c hc => hc

theorem titleFieldClean_ne_nil (v : PyVal) : titleFieldClean v ≠ [] := by
  cases v <;> simp only [titleFieldClean] <;> try decide
  exact ite_default_ne_nil

theorem titleFieldClean_length_le (v : PyVal) : (titleFieldClean v).length ≤ 100 := by
  cases v <;> simp only [titleFieldClean] <;> try decide
  exact ite_default_length (le_trans (pstrip_length_le _) (truncate100_length _))

theorem titleFieldClean_safe (v : PyVal) :
    ∀ c ∈ titleFieldClean v, isUnsafeCh c = false := by
  cases v <;> simp only [titleFieldClean] <;> try decide
  refine ite_default_safe fun c hc => ?_
  exact replaceUnsafe_safe _ c (truncate100_subset _ c (pstrip_subset _ c hc))

theorem summaryLead_ne_nil : summaryLead ≠ [] := by decide

theorem summaryFinalize_ne_nil (s0 : List Char) (pts : List (List Char)) :
    summaryFinalize s0 pts ≠ [] := by
  unfold summaryFinalize
  split
  · split
    · intro hcontra
      have := congrArg List.length hcontra
      simp only [List.length_append, List.length_nil] at this
      have hl : summaryLead.length > 0 := by decide
      omega
    · decide
  · case _ h =>
    push_neg at h
    exact h.1

theorem cleanSummaryVal_ok_shape {v : PyVal} {pts : List (List Char)}
    {s : List Char} (h : cleanSummaryVal v pts = Except.ok s) :
    ∃ s0, s = summaryFinalize s0 pts := by
  cases v <;> simp only [cleanSummaryVal] at h <;>
    first
    | (exact ⟨_, (Except.ok.inj h).symm⟩)
    | skip
  case pstr sum =>
    split at h
    · exact ⟨_, (Except.ok.inj h).symm⟩
    · split at h
      · split at h
        · exact ⟨_, (Except.ok.inj h).symm⟩
        all_goals exact absurd h (by simp)
      · exact ⟨_, (Except.ok.inj h).symm⟩

theorem cleanSummaryVal_ok_ne_nil {v : PyVal} {pts : List (List Char)}
    {s : List Char} (h : cleanSummaryVal v pts = Except.ok s) : s ≠ [] := by
  obtain ⟨s0, rfl⟩ := cleanSummaryVal_ok_shape h
  exact summaryFinalize_ne_nil s0 pts

theorem titleOverride_length_le (tfc : List Char) (pts : List (List Char))
    (htfc : tfc.length ≤ 100) : (titleOverride tfc pts).length ≤ 100 := by
  unfold titleOverride
  split
  · split
    · simp only [List.length_map, List.length_take]
      omega
    · decide
  · exact htfc

/-- The fields of a successful `validateAndClean` run, in terms of the
cleaning functions it composes. -/
theorem validateAndClean_fields {data : PyDict} {r : CleanedData}
    (h : validateAndClean data = Except.ok r) :
    r.key_points = (dataPoints data).take 7 ∧
    cleanSummaryVal (dget data "summary".toList (PyVal.pstr []))
      (dataPoints data) = Except.ok r.summary ∧
    r.title = dataTitle data := by
  unfold validateAndClean at h
  split at h
  · exact Except.noConfusion h
  · rename_i summary hsum
    split at h
    · exact Except.noConfusion h
    · rename_i dcList hdc
      split at h
      · rw [← Except.ok.inj h]
        exact ⟨rfl, hsum, rfl⟩
      · split at h
        · exact Except.noConfusion h
        · rw [← Except.ok.inj h]
          exact ⟨rfl, hsum, rfl⟩

/-!
Section: Well-shaped payloads: a sufficient condition for `validateAndClean`
not to raise
-/

/-- The key is absent, or present with a string value. -/
def strOrAbsent (d : PyDict) (k : List Char) : Bool :=
  match dlookup d k with
  | some (PyVal.pstr _) => true
  | some _ => false
  | none => true

def itemWellShaped (iv : PyVal) : Bool :=
  match iv with
  | PyVal.pdict idict =>
    strOrAbsent idict "sub_heading".toList && strOrAbsent idict "details".toList
  | _ => true

def sectionWellShaped (sv : PyVal) : Bool :=
  match sv with
  | PyVal.pdict sd =>
    strOrAbsent sd "heading".toList &&
      (match dget sd "content".toList (PyVal.plist []) with
       | PyVal.plist is => is.all itemWellShaped
       | _ => true)
  | _ => true

def oldSubWellShaped (sv : PyVal) : Bool :=
  match sv with
  | PyVal.pdict sd =>
    strOrAbsent sd "title".toList && strOrAbsent sd "content".toList
  | _ => true

def oldSectionWellShaped (sv : PyVal) : Bool :=
  match sv with
  | PyVal.pdict sd =>
    strOrAbsent sd "title".toList && strOrAbsent sd "content".toList &&
      (match dget sd "subsections".toList (PyVal.plist []) with
       | PyVal.plist is => is.all oldSubWellShaped
       | _ => true)
  | _ => true

/-- The summary string does not itself look like a stringified object, which
is the one branch whose inner re-parse can rebind `summary` to a non-string. -/
def summaryWellShaped (v : PyVal) : Bool :=
  match v with
  | PyVal.pstr s =>
    !startsWithL "\"summary\"".toList (pstrip s) && !startsWithL "\x7b".toList (pstrip s)
  | _ => true

def wellShaped (data : PyDict) : Bool :=
  summaryWellShaped (dget data "summary".toList (PyVal.pstr [])) &&
    (match dget data "detailed_content".toList (PyVal.plist []) with
     | PyVal.plist xs => xs.all sectionWellShaped
     | _ => true) &&
    (match dget data "sections".toList (PyVal.plist []) with
     | PyVal.plist xs => xs.all oldSectionWellShaped
     | _ => true)

theorem dget_eq_dlookup (d : PyDict) (k : List Char) (dflt : PyVal) :
    dget d k dflt = (dlookup d k).getD dflt := by
  unfold dget dlookup
  cases d.find? (fun p => p.1 == k) <;> simp

theorem getStripped_ok {d : PyDict} {k : List Char}
    (h : strOrAbsent d k = true) : ∃ s, getStripped d k = Except.ok s := by
  unfold strOrAbsent at h
  unfold getStripped
  rw [dget_eq_dlookup]
  cases hv : dlookup d k with
  | none => exact ⟨_, rfl⟩
  | some v =>
    rw [hv] at h
    cases v <;> simp at h ⊢

theorem listFilterMapE_ok {α β : Type} {f : α → Except Unit (Option β)}
    {xs : List α} (h : ∀ x ∈ xs, ∃ o, f x = Except.ok o) :
    ∃ rs, listFilterMapE f xs = Except.ok rs := by
  induction xs with
  | nil => exact ⟨[], rfl⟩
  | cons x xs ih =>
    obtain ⟨o, ho⟩ := h x (by simp)
    obtain ⟨rs, hrs⟩ := ih fun y hy => h y (by simp [hy])
    cases o with
    | some b =>
      refine ⟨b :: rs, ?_⟩
      unfold listFilterMapE
      rw [ho, hrs]
    | none =>
      refine ⟨rs, ?_⟩
      unfold listFilterMapE
      rw [ho, hrs]

theorem cleanItem_ok {iv : PyVal} (h : itemWellShaped iv = true) :
    ∃ o, cleanItem iv = Except.ok o := by
  unfold itemWellShaped at h
  cases iv <;> simp only [cleanItem]
  case pdict idict =>
    rw [Bool.and_eq_true] at h
    obtain ⟨s1, hs1⟩ := getStripped_ok h.1
    obtain ⟨s2, hs2⟩ := getStripped_ok h.2
    rw [hs1, hs2]
    exact ⟨_, rfl⟩
  all_goals exact ⟨_, rfl⟩

theorem cleanSection_ok {sv : PyVal} (h : sectionWellShaped sv = true) :
    ∃ o, cleanSection sv = Except.ok o := by
  unfold sectionWellShaped at h
  cases sv <;> simp only [cleanSection]
  case pdict sd =>
    rw [Bool.and_eq_true] at h
    obtain ⟨s1, hs1⟩ := getStripped_ok h.1
    rw [hs1]
    have h2 := h.2
    cases hv : dget sd "content".toList (PyVal.plist []) <;> rw [hv] at h2 <;>
      simp only []
    case plist is =>
      rw [List.all_eq_true] at h2
      obtain ⟨rs, hrs⟩ := listFilterMapE_ok (f := cleanItem)
        fun x hx => cleanItem_ok (h2 x hx)
      rw [hrs]
      exact ⟨_, rfl⟩
    all_goals exact ⟨_, rfl⟩
  all_goals exact ⟨_, rfl⟩

theorem cleanOldSub_ok {sv : PyVal} (h : oldSubWellShaped sv = true) :
    ∃ o, cleanOldSub sv = Except.ok o := by
  unfold oldSubWellShaped at h
  cases sv <;> simp only [cleanOldSub]
  case pdict sd =>
    rw [Bool.and_eq_true] at h
    obtain ⟨s1, hs1⟩ := getStripped_ok h.1
    obtain ⟨s2, hs2⟩ := getStripped_ok h.2
    rw [hs1, hs2]
    exact ⟨_, rfl⟩
  all_goals exact ⟨_, rfl⟩

theorem cleanOldSection_ok {sv : PyVal} (h : oldSectionWellShaped sv = true) :
    ∃ o, cleanOldSection sv = Except.ok o := by
  unfold oldSectionWellShaped at h
  cases sv <;> simp only [cleanOldSection]
  case pdict sd =>
    rw [Bool.and_eq_true, Bool.and_eq_true] at h
    obtain ⟨s1, hs1⟩ := getStripped_ok h.1.1
    obtain ⟨s2, hs2⟩ := getStripped_ok h.1.2
    rw [hs1, hs2]
    have h2 := h.2
    cases hv : dget sd "subsections".toList (PyVal.plist []) <;> rw [hv] at h2 <;>
      simp only []
    case plist is =>
      rw [List.all_eq_true] at h2
      obtain ⟨rs, hrs⟩ := listFilterMapE_ok (f := cleanOldSub)
        fun x hx => cleanOldSub_ok (h2 x hx)
      rw [hrs]
      exact ⟨_, rfl⟩
    all_goals exact ⟨_, rfl⟩
  all_goals exact ⟨_, rfl⟩

theorem cleanSummaryVal_ok_of {v : PyVal} (h : summaryWellShaped v = true)
    (pts : List (List Char)) : ∃ s, cleanSummaryVal v pts = Except.ok s := by
  unfold summaryWellShaped at h
  cases v <;> simp only [cleanSummaryVal]
  case pstr sum =>
    split
    · exact ⟨_, rfl⟩
    · rw [Bool.and_eq_true] at h
      have hcond : (startsWithL "\"summary\"".toList (pstrip sum) ||
          startsWithL "\x7b".toList (pstrip sum)) = false := by
        rcases h with ⟨h1, h2⟩
        simp only [Bool.not_eq_true'] at h1 h2
        rw [h1, h2]
        rfl
      rw [hcond]
      simp only [Bool.false_eq_true, if_false]
      exact ⟨_, rfl⟩
  all_goals exact ⟨_, rfl⟩

/-- A well-shaped payload is normalized without an exception. -/
theorem validateAndClean_ok {data : PyDict} (h : wellShaped data = true) :
    ∃ r, validateAndClean data = Except.ok r := by
  unfold wellShaped at h
  rw [Bool.and_eq_true, Bool.and_eq_true] at h
  obtain ⟨⟨h1, h2⟩, h3⟩ := h
  obtain ⟨s, hs⟩ := cleanSummaryVal_ok_of h1 (dataPoints data)
  have hdc : ∃ dcl, dataDetailed data = Except.ok dcl := by
    unfold dataDetailed
    cases hv : dget data "detailed_content".toList (PyVal.plist []) <;>
      rw [hv] at h2 <;> simp only []
    case plist xs =>
      rw [List.all_eq_true] at h2
      exact listFilterMapE_ok fun x hx => cleanSection_ok (h2 x hx)
    all_goals exact ⟨_, rfl⟩
  obtain ⟨dcl, hdcl⟩ := hdc
  have hsec : ∃ scl, dataOldSections data = Except.ok scl := by
    unfold dataOldSections
    cases hv : dget data "sections".toList (PyVal.plist []) <;>
      rw [hv] at h3 <;> simp only []
    case plist xs =>
      rw [List.all_eq_true] at h3
      exact listFilterMapE_ok fun x hx => cleanOldSection_ok (h3 x hx)
    all_goals exact ⟨_, rfl⟩
  obtain ⟨scl, hscl⟩ := hsec
  unfold validateAndClean
  simp only [hs, hdcl, hscl]
  split
  · exact ⟨_, rfl⟩
  · exact ⟨_, rfl⟩

/-!
Section: Key-point and section characterizations
-/

theorem entriesOf_normal_str {s : List Char} (hm : malformedTrigger s = false) :
    ∀ e ∈ entriesOf (PyVal.pstr s), e.length > 5 ∧ e = pointClean s := by
  intro e he
  simp only [entriesOf, hm, Bool.false_eq_true, if_false] at he
  split at he
  · simp at he
  · split at he
    · rename_i hcond
      simp only [List.mem_singleton] at he
      subst he
      exact ⟨hcond.2, rfl⟩
    · simp at he

theorem cleanPointsList_sound {xs : List PyVal}
    (hm : ∀ s, PyVal.pstr s ∈ xs → malformedTrigger s = false) :
    ∀ e ∈ cleanPointsList xs,
      e.length > 5 ∧ ∃ raw, PyVal.pstr raw ∈ xs ∧ e = pointClean raw := by
  induction xs with
  | nil => simp [cleanPointsList]
  | cons p ps ih =>
    intro e he
    unfold cleanPointsList at he
    rw [List.mem_append] at he
    rcases he with he | he
    · cases p with
      | pstr s =>
        have hh := entriesOf_normal_str (hm s (by simp)) e he
        exact ⟨hh.1, s, by simp, hh.2⟩
      | pint n => simp [entriesOf] at he
      | pfloat l => simp [entriesOf] at he
      | pbool b => simp [entriesOf] at he
      | pnone => simp [entriesOf] at he
      | plist l => simp [entriesOf] at he
      | pdict l => simp [entriesOf] at he
    · obtain ⟨h5, raw, hraw, heq⟩ := ih (fun s hs => hm s (by simp [hs])) e he
      exact ⟨h5, raw, by simp [hraw], heq⟩

/-- Plain accessor: the stripped string stored under `k`, or empty. -/
def getStrD (d : PyDict) (k : List Char) : List Char :=
  match dlookup d k with
  | some (PyVal.pstr s) => pstrip s
  | _ => []

theorem getStripped_eq {d : PyDict} {k : List Char}
    (h : strOrAbsent d k = true) : getStripped d k = Except.ok (getStrD d k) := by
  unfold strOrAbsent at h
  unfold getStripped getStrD
  rw [dget_eq_dlookup]
  cases hv : dlookup d k with
  | none => rfl
  | some v =>
    rw [hv] at h
    cases v <;> simp_all

/-- Spec-side characterization (from the amended claim's words): a content
item counts when it is a mapping with a non-empty `sub_heading` or a
non-empty `details` string. -/
def itemQualifies (iv : PyVal) : Bool :=
  match iv with
  | PyVal.pdict idict =>
    !(getStrD idict "sub_heading".toList).isEmpty ||
      !(getStrD idict "details".toList).isEmpty
  | _ => false

/-- Spec-side characterization: a section is retained when its `content`
list holds at least one qualifying item. -/
def sectionQualifies (sv : PyVal) : Bool :=
  match sv with
  | PyVal.pdict sd =>
    match dget sd "content".toList (PyVal.plist []) with
    | PyVal.plist is => is.any itemQualifies
    | _ => false
  | _ => false

theorem optIf_isSome (s : List Char) :
    (if s ≠ [] then some s else none : Option (List Char)).isSome = !s.isEmpty := by
  split
  · rename_i h
    simp [List.isEmpty_iff, h]
  · rename_i h
    push_neg at h
    simp [List.isEmpty_iff, h]

theorem cleanItem_char {iv : PyVal} (h : itemWellShaped iv = true) :
    (∃ it, cleanItem iv = Except.ok (some it)) ↔ itemQualifies iv = true := by
  cases iv
  case pdict idict =>
    unfold itemWellShaped at h
    rw [Bool.and_eq_true] at h
    show (∃ it,
        (match getStripped idict "sub_heading".toList with
         | Except.error e => Except.error e
         | Except.ok sub =>
           match getStripped idict "details".toList with
           | Except.error e => Except.error e
           | Except.ok det =>
             let item : CleanedItem :=
               ⟨if sub ≠ [] then some sub else none, if det ≠ [] then some det else none⟩
             Except.ok (if item.sub_heading.isSome || item.details.isSome then some item
               else none)) = Except.ok (some it)) ↔
      (!(getStrD idict "sub_heading".toList).isEmpty ||
        !(getStrD idict "details".toList).isEmpty) = true
    rw [getStripped_eq h.1, getStripped_eq h.2]
    simp only [optIf_isSome]
    split
    · rename_i hC
      constructor
      · intro _
        exact hC
      · intro _
        exact ⟨_, rfl⟩
    · rename_i hC
      constructor
      · rintro ⟨it, hit⟩
        exact absurd (Except.ok.inj hit) (by simp)
      · intro hq
        exact absurd hq hC
  all_goals simp [cleanItem, itemQualifies]

theorem listFilterMapE_items_char {is : List PyVal}
    (h : ∀ x ∈ is, itemWellShaped x = true) {rs : List CleanedItem}
    (hrs : listFilterMapE cleanItem is = Except.ok rs) :
    (rs ≠ [] ↔ is.any itemQualifies = true) := by
  induction is generalizing rs with
  | nil =>
    unfold listFilterMapE at hrs
    have hn := Except.ok.inj hrs
    subst hn
    simp
  | cons x xs ih =>
    unfold listFilterMapE at hrs
    cases hx : cleanItem x with
    | error e =>
      rw [hx] at hrs
      exact Except.noConfusion hrs
    | ok o =>
      rw [hx] at hrs
      cases hrec : listFilterMapE cleanItem xs with
      | error e =>
        rw [hrec] at hrs
        exact Except.noConfusion hrs
      | ok rs2 =>
        rw [hrec] at hrs
        have hiff := ih (fun y hy => h y (by simp [hy])) hrec
        have hx_char := cleanItem_char (h x (by simp))
        cases o with
        | some it =>
          have heq : it :: rs2 = rs := Except.ok.inj hrs
          subst heq
          have hq : itemQualifies x = true := hx_char.mp ⟨it, hx⟩
          simp [hq]
        | none =>
          have heq : rs2 = rs := Except.ok.inj hrs
          subst heq
          have hq : itemQualifies x = false := by
            rcases hb : itemQualifies x with _ | _
            · rfl
            · obtain ⟨it, hit⟩ := hx_char.mpr hb
              rw [hx] at hit
              exact absurd (Except.ok.inj hit) (by simp)
          simp [hq, hiff]

theorem cleanSection_char {sv : PyVal} (h : sectionWellShaped sv = true) :
    (∃ c, cleanSection sv = Except.ok (some c)) ↔ sectionQualifies sv = true := by
  cases sv
  case pdict sd =>
    unfold sectionWellShaped at h
    rw [Bool.and_eq_true] at h
    show (∃ c,
        (match getStripped sd "heading".toList with
         | Except.error e => Except.error e
         | Except.ok heading =>
           match (match dget sd "content".toList (PyVal.plist []) with
                  | PyVal.plist is => listFilterMapE cleanItem is
                  | _ => Except.ok []) with
           | Except.error e => Except.error e
           | Except.ok items =>
             Except.ok (if items ≠ [] then
               some (CleanedSection.mk (if heading ≠ [] then some heading else none) items)
             else none)) = Except.ok (some c)) ↔
      (match dget sd "content".toList (PyVal.plist []) with
       | PyVal.plist is => is.any itemQualifies
       | _ => false) = true
    rw [getStripped_eq h.1]
    have h2 := h.2
    cases hv : dget sd "content".toList (PyVal.plist []) <;> rw [hv] at h2 <;>
      simp only []
    case plist is =>
      rw [List.all_eq_true] at h2
      obtain ⟨rs, hrs⟩ := listFilterMapE_ok (f := cleanItem)
        fun x hx => cleanItem_ok (h2 x hx)
      rw [hrs]
      have hiff := listFilterMapE_items_char h2 hrs
      simp only []
      split
      · rename_i hne
        constructor
        · intro _
          exact hiff.mp hne
        · intro _
          exact ⟨_, rfl⟩
      · rename_i hne
        constructor
        · rintro ⟨c, hc⟩
          exact absurd (Except.ok.inj hc) (by simp)
        · intro hq
          exact absurd (hiff.mpr hq) hne
    all_goals
      constructor
      · rintro ⟨c, hc⟩
        exact absurd (Except.ok.inj hc) (by simp)
      · intro hq
        exact absurd hq (by simp)
  all_goals
    simp [cleanSection, sectionQualifies]

theorem take7_head? {α : Type} (l : List α) : (l.take 7).head? = l.head? := by
  cases l <;> simp

theorem take7_nil {α : Type} {l : List α} (h : l.take 7 = []) : l = [] := by
  cases l <;> simp_all

/-!
Section: Claims
-/

/-- C3 counterexample: `_validate_and_clean_json` raises on a payload whose
`detailed_content` holds a section with a non-string `heading` (Python
`AttributeError` from `.strip()` on an int), refuting "never raises". -/
theorem claim3_counterexample :
    validateAndClean [("detailed_content".toList,
      PyVal.plist [PyVal.pdict [("heading".toList, PyVal.pint 1)]])] =
      Except.error () := rfl

/-- C3 (amended): normalization never raises provided every structural text
field that is present (section headings, sub-headings, details, legacy
section/subsection titles and contents) is a string and the summary string
does not itself look like a stringified object; it always yields a
Note-shaped result, and on the empty payload the title is the non-empty
literal `video_notes`. -/
theorem claim3_normalize_total :
    (∀ data : PyDict, wellShaped data = true → ∃ r, validateAndClean data = Except.ok r) ∧
    validateAndClean [] =
      Except.ok ⟨[], summaryDefault, "video_notes".toList, none, none⟩ ∧
    ("video_notes".toList : List Char) ≠ [] :=
  ⟨fun _ h => validateAndClean_ok h, rfl, by decide⟩

/-- C3 witness: the hypothesis of the universally quantified part holds for
a concrete well-shaped payload, and normalization succeeds on it. -/
theorem claim3_witness :
    ∃ r, validateAndClean [("summary".toList, PyVal.pstr "A usable summary.".toList),
      ("detailed_content".toList, PyVal.plist [PyVal.pdict
        [("heading".toList, PyVal.pstr "H".toList),
         ("content".toList, PyVal.plist [PyVal.pdict
           [("details".toList, PyVal.pstr "some details".toList)]])]])] =
      Except.ok r :=
  claim3_normalize_total.1 _ (by decide)

/-- C6 counterexample: an entry recovered through the malformed
stringified-JSON branch is length-checked before the numeric-marker strip,
so `ab` (length 2) survives; and a bullet marker `- ` is not stripped at
all.  Both refute "each entry length > 5 and no leading marker". -/
theorem claim6_counterexample :
    (∃ r, validateAndClean [("key_points".toList, PyVal.plist
        [PyVal.pstr "\x7b\"x\": [\"123、ab\", \"another valid point\"]\x7d".toList])] =
        Except.ok r ∧ r.key_points = ["ab".toList, "another valid point".toList]) ∧
    (∃ r, validateAndClean [("key_points".toList, PyVal.plist
        [PyVal.pstr "- a bullet point".toList])] = Except.ok r ∧
        r.key_points = ["- a bullet point".toList]) :=
  ⟨⟨_, rfl, by decide⟩, ⟨_, rfl, by decide⟩⟩

/-- C6 (amended): the cleaned `key_points` list always has length at most 7;
and when no raw entry routes into the malformed stringified-JSON branch,
every cleaned entry has length strictly greater than 5 and is exactly the
quote-stripped, one-numeric-marker-stripped form of some raw string entry. -/
theorem claim6_key_points_bounds :
    (∀ (data : PyDict) (r : CleanedData), validateAndClean data = Except.ok r →
      r.key_points.length ≤ 7) ∧
    (∀ (data : PyDict) (r : CleanedData) (xs : List PyVal),
      validateAndClean data = Except.ok r →
      dget data "key_points".toList (PyVal.plist []) = PyVal.plist xs →
      (∀ s, PyVal.pstr s ∈ xs → malformedTrigger s = false) →
      ∀ e ∈ r.key_points, e.length > 5 ∧
        ∃ raw, PyVal.pstr raw ∈ xs ∧ e = pointClean raw) := by
  constructor
  · intro data r h
    obtain ⟨hkp, -, -⟩ := validateAndClean_fields h
    rw [hkp]
    simp only [List.length_take]
    exact Nat.min_le_left _ _
  · intro data r xs h hv hm e he
    obtain ⟨hkp, -, -⟩ := validateAndClean_fields h
    rw [hkp] at he
    have he' := List.take_subset _ _ he
    have he2 : e ∈ cleanPointsList xs := by
      unfold dataPoints at he'
      rw [hv] at he'
      exact he'
    exact cleanPointsList_sound hm e he2

/-- The raw key-point entries of the C6 witness payload. -/
def claim6Points : List PyVal :=
  [PyVal.pstr "1. first real point".toList, PyVal.pstr "x".toList]

/-- The C6 witness payload. -/
def claim6Payload : PyDict := [("key_points".toList, PyVal.plist claim6Points)]

/-- C6 witness: concrete instantiation of the amended bounds. -/
theorem claim6_witness :
    ∃ r, validateAndClean claim6Payload = Except.ok r ∧
      r.key_points.length ≤ 7 ∧
      (∀ e ∈ r.key_points, e.length > 5 ∧
        ∃ raw, PyVal.pstr raw ∈ claim6Points ∧ e = pointClean raw) := by
  refine ⟨_, rfl, ?_, ?_⟩
  · exact claim6_key_points_bounds.1 claim6Payload _ rfl
  · refine claim6_key_points_bounds.2 claim6Payload _ claim6Points rfl rfl ?_
    intro s hs
    simp [claim6Points] at hs
    rcases hs with h | h <;> subst h <;> decide

/-- C7 counterexample: when the malformed-branch recovery yields an empty
first key point, the title fallback produces an *empty* title; and the
key-point-derived fallback keeps filesystem-unsafe characters such as `?`.
Both refute the claimed title invariants. -/
theorem claim7_counterexample :
    (∃ r, validateAndClean [("key_points".toList, PyVal.plist
        [PyVal.pstr "\x7b\"x\": [\"123456、\", \"another valid point\"]\x7d".toList])] =
        Except.ok r ∧ r.title = []) ∧
    (∃ r, validateAndClean [("key_points".toList, PyVal.plist
        [PyVal.pstr "what? is this thing here".toList])] = Except.ok r ∧
        r.title = "what? is this thing here".toList ∧
        ('?' ∈ r.title)) :=
  ⟨⟨_, rfl, by decide⟩, ⟨_, rfl, by decide, by decide⟩⟩

/-- C7 (amended): after normalization the title has length at most 100 and
the summary is never empty; when no key points survive, the title is
non-empty and free of filesystem-unsafe characters (it comes from the
title-field cleaning or the fixed literal); the title can only be empty
when the first cleaned key point is itself empty. -/
theorem claim7_title_summary_invariants (data : PyDict) (r : CleanedData)
    (h : validateAndClean data = Except.ok r) :
    r.title.length ≤ 100 ∧
    r.summary ≠ [] ∧
    (r.key_points = [] → r.title ≠ [] ∧ ∀ c ∈ r.title, isUnsafeCh c = false) ∧
    (r.title = [] → r.key_points.head? = some []) := by
  obtain ⟨hkp, hsum, htitle⟩ := validateAndClean_fields h
  refine ⟨?_, ?_, ?_, ?_⟩
  · rw [htitle]
    exact titleOverride_length_le _ _ (titleFieldClean_length_le _)
  · exact cleanSummaryVal_ok_ne_nil hsum
  · intro hk
    rw [hkp] at hk
    have hdp : dataPoints data = [] := take7_nil hk
    rw [htitle]
    unfold dataTitle titleOverride
    rw [hdp]
    split
    · exact ⟨by decide, by decide⟩
    · exact ⟨titleFieldClean_ne_nil _, titleFieldClean_safe _⟩
  · intro ht
    rw [htitle] at ht
    unfold dataTitle titleOverride at ht
    split at ht
    · cases hd : dataPoints data with
      | nil =>
        rw [hd] at ht
        exact absurd ht (by decide)
      | cons p ps =>
        rw [hd] at ht
        have ht' : (p.take 50).map
            (fun c => if c = '/' || c = '\\' then '_' else c) = [] := ht
        have hp : p = [] := by
          have h1 := List.map_eq_nil_iff.mp ht'
          rcases List.take_eq_nil_iff.mp h1 with h2 | h2
          · exact absurd h2 (by decide)
          · exact h2
        rw [hkp, take7_head?, hd, hp]
        rfl
    · exact absurd ht (titleFieldClean_ne_nil _)

/-- A concrete payload exercising the amended C7 invariants. -/
def claim7Payload : PyDict :=
  [("title".toList, PyVal.pstr "  My Title.md  ".toList),
   ("key_points".toList, PyVal.plist [PyVal.pstr "1. first real point".toList]),
   ("summary".toList, PyVal.pstr "A fine summary.".toList)]

/-- C7 witness: concrete instantiation of the amended invariants. -/
theorem claim7_witness :
    ∃ r, validateAndClean claim7Payload = Except.ok r ∧
      (r.title.length ≤ 100 ∧ r.summary ≠ [] ∧
       (r.key_points = [] → r.title ≠ [] ∧ ∀ c ∈ r.title, isUnsafeCh c = false) ∧
       (r.title = [] → r.key_points.head? = some [])) := by
  refine ⟨_, rfl, ?_⟩
  exact claim7_title_summary_invariants claim7Payload _ rfl

/-- C8 counterexample: a section with an *empty* heading but a detailed item
is retained, and a section whose only item has a sub-heading but *no*
details is retained — refuting "retain iff non-empty heading and at least
one sub-item with non-empty details". -/
theorem claim8_counterexample :
    cleanSection (PyVal.pdict [("heading".toList, PyVal.pstr []),
      ("content".toList, PyVal.plist [PyVal.pdict [("details".toList,
        PyVal.pstr "some details here".toList)]])]) =
      Except.ok (some ⟨none, [⟨none, some "some details here".toList⟩]⟩) ∧
    cleanSection (PyVal.pdict [("heading".toList, PyVal.pstr "H".toList),
      ("content".toList, PyVal.plist [PyVal.pdict [("sub_heading".toList,
        PyVal.pstr "S".toList)]])]) =
      Except.ok (some ⟨some "H".toList, [⟨some "S".toList, none⟩]⟩) :=
  ⟨rfl, rfl⟩

/-- C8 (amended): for a well-shaped section value, the cleaning pass retains
it (as a `some` section, silently dropping it otherwise without error) if
and only if its content list holds at least one mapping item whose cleaned
`sub_heading` or `details` is non-empty; the heading is not required. -/
theorem claim8_section_retention (sv : PyVal) (h : sectionWellShaped sv = true) :
    (∃ c, cleanSection sv = Except.ok (some c)) ↔ sectionQualifies sv = true :=
  cleanSection_char h

/-- C8 witness: concrete instantiation of the retention characterization. -/
theorem claim8_witness :
    (∃ c, cleanSection (PyVal.pdict [("heading".toList, PyVal.pstr "H".toList),
      ("content".toList, PyVal.plist [PyVal.pdict [("details".toList,
        PyVal.pstr "body text".toList)]])]) = Except.ok (some c)) ↔
    sectionQualifies (PyVal.pdict [("heading".toList, PyVal.pstr "H".toList),
      ("content".toList, PyVal.plist [PyVal.pdict [("details".toList,
        PyVal.pstr "body text".toList)]])]) = true :=
  claim8_section_retention _ (by decide)

/-- C10 (confirmed): when the cleaned title field is exactly the literal
`video_notes` — including when the model genuinely produced that title —
and cleaned key points exist, normalization replaces the title with the
first cleaned key point truncated to 50 characters with `/` and `\`
replaced by `_`; the literal survives only when no key points exist. -/
theorem claim10_default_title_overridden (data : PyDict) (r : CleanedData)
    (h : validateAndClean data = Except.ok r)
    (ht : titleFieldClean (dget data "title".toList
      (PyVal.pstr "video_notes".toList)) = "video_notes".toList) :
    (∀ p, r.key_points.head? = some p →
      r.title = (p.take 50).map fun c => if c = '/' || c = '\\' then '_' else c) ∧
    (r.key_points = [] → r.title = "video_notes".toList) := by
  obtain ⟨hkp, -, htitle⟩ := validateAndClean_fields h
  rw [htitle]
  unfold dataTitle
  rw [ht]
  unfold titleOverride
  rw [if_pos (Or.inr rfl)]
  constructor
  · intro p hp
    rw [hkp, take7_head?] at hp
    cases hd : dataPoints data with
    | nil =>
      rw [hd] at hp
      exact Option.noConfusion hp
    | cons q qs =>
      rw [hd] at hp
      have hq : q = p := Option.some.inj hp
      rw [hq]
  · intro hk
    rw [hkp] at hk
    rw [take7_nil hk]

/-- A payload genuinely titled `video_notes`, with one key point. -/
def claim10Payload : PyDict :=
  [("title".toList, PyVal.pstr "video_notes".toList),
   ("key_points".toList, PyVal.plist [PyVal.pstr "a genuine point here".toList])]

/-- C10 witness: a payload whose title is genuinely `video_notes` and which
has a key point gets the key point (slash-mapped, truncated to 50) as its
title. -/
theorem claim10_witness :
    ∃ r, validateAndClean claim10Payload = Except.ok r ∧
      r.title = ("a genuine point here".toList.take 50).map
        (fun c => if c = '/' || c = '\\' then '_' else c) := by
  refine ⟨_, rfl, ?_⟩
  exact (claim10_default_title_overridden claim10Payload _ rfl rfl).1
    "a genuine point here".toList (by decide)

/-- The spec's truncation scenario: a raw response cut off mid-string. -/
def truncatedScenario : List Char :=
  "\x7b\"title\": \"T\", \"key_points\": [\"Point one here\", \"Point tw".toList

/-- The fields of the spec's embedded-JSON scenario, with an extra string
value holding literal braces to exercise the in-string depth rule. -/
def claim1Fields : List (List Char × Json) :=
  [("title".toList, Json.jstr "T".toList),
   ("key_points".toList, Json.jarr [Json.jstr "A long enough point".toList]),
   ("note".toList, Json.jstr "a \x7b b \x7d c".toList)]

/-- C1 counterexample: a response holding a well-formed JSON object after
prose that itself contains a brace.  The scan starts at the *first* brace,
extracts `\x7bbrackets\x7d` instead of the JSON object, and the whole
pipeline then fails — refuting "recovers it exactly regardless of
leading/trailing text". -/
theorem claim1_counterexample :
    (jsonLoads "\x7b\"title\": \"T\", \"key_points\": [\"A long enough point\"]\x7d".toList).isSome
      = true ∧
    "Use \x7bbrackets\x7d wisely. \x7b\"title\": \"T\", \"key_points\": [\"A long enough point\"]\x7d".toList
      = "Use \x7bbrackets\x7d wisely. ".toList ++
        "\x7b\"title\": \"T\", \"key_points\": [\"A long enough point\"]\x7d".toList ++ [] ∧
    extractCandidate
      "Use \x7bbrackets\x7d wisely. \x7b\"title\": \"T\", \"key_points\": [\"A long enough point\"]\x7d".toList
      = some "\x7bbrackets\x7d".toList ∧
    processContent
      "Use \x7bbrackets\x7d wisely. \x7b\"title\": \"T\", \"key_points\": [\"A long enough point\"]\x7d".toList
      = Except.error SummErr.missingContent :=
  ⟨rfl, by decide, rfl, rfl⟩

/-- C1 (amended): for every well-formed JSON object embedded in prose whose
*leading* part contains no opening brace (trailing text arbitrary), the
brace-depth scan recovers exactly that object: braces inside quoted values,
including after escaped quotes, never move the depth counter, so the scan
ends neither early nor late. -/
theorem claim1_extract_embedded (fs : List (List Char × Json)) (p1 p2 : List Char)
    (h : '\x7b' ∉ p1) :
    extractCandidate (p1 ++ serialize (Json.jobj fs) ++ p2) =
      some (serialize (Json.jobj fs)) :=
  extractCandidate_embedded fs p1 p2 h

/-- C1 witness: the spec's own scenario (prose-wrapped object, a string
value with literal braces) instantiates the amended theorem. -/
theorem claim1_witness :
    ('\x7b' ∉ "Here you go: ".toList) ∧
    extractCandidate ("Here you go: ".toList ++ serialize (Json.jobj claim1Fields) ++
        " Thanks!".toList) = some (serialize (Json.jobj claim1Fields)) :=
  ⟨by decide, claim1_extract_embedded claim1Fields "Here you go: ".toList
    " Thanks!".toList (by decide)⟩

set_option maxRecDepth 8000 in
/-- C2 counterexample: the spec's own truncation scenario ends inside a
string with outstanding depth 1; appending the one missing brace yields
text `json.loads` rejects, so extraction produces nothing and the pipeline
errors — nothing is recovered, refuting "the re-attempted parse succeeds
and recovers the fields before the truncation point". -/
theorem claim2_counterexample :
    braceScan truncatedScenario 0 false false 0 = Sum.inl 1 ∧
    jsonLoads (truncatedScenario ++ List.replicate 1 '\x7d') = none ∧
    extractStage truncatedScenario = none ∧
    processContent truncatedScenario = Except.error SummErr.missingContent :=
  ⟨rfl, rfl, rfl, rfl⟩

/-- C2 (amended): when the scan reaches end of input with outstanding depth
`k > 0`, the repair appends exactly `k` closing braces and re-attempts the
parse; the repaired text is selected exactly when `json.loads` accepts it,
and otherwise extraction yields nothing (the caller falls back to the text
heuristic) — truncated data is dropped wholesale, never corrupted into the
output. -/
theorem claim2_repair_appends (content : List Char) (start : Nat) (k : Int)
    (h1 : firstBraceIdx content = some start)
    (h2 : braceScan (content.drop start) 0 false false 0 = Sum.inl k)
    (h3 : 0 < k) :
    extractStage content =
      (if (jsonLoads (content.drop start ++ List.replicate k.toNat '\x7d')).isSome
       then some (content.drop start ++ List.replicate k.toNat '\x7d')
       else none) := by
  unfold extractStage
  rw [h1]
  simp only []
  rw [h2]
  simp only []
  rw [if_pos h3]

/-- C2 witness: a payload truncated at a clean boundary; the repair appends
the single missing brace and the re-parse succeeds. -/
theorem claim2_witness :
    extractStage "\x7b\"title\": \"T\"".toList = some "\x7b\"title\": \"T\"\x7d".toList :=
  Eq.trans (claim2_repair_appends "\x7b\"title\": \"T\"".toList 0 1 rfl rfl (by decide)) rfl

/-- C4 counterexample: the timeout path and the generic-failure path raise
the *same* error kind (`AudioExtractionError`); only the message differs —
refuting "a dedicated error kind distinct from the generic
audio-extraction-failure error kind". -/
theorem claim4_counterexample :
    (extract_audio true (FfmpegRun.completes 31 0 true)).outcome =
      Except.error (ErrKind.audioExtraction, AudioMsg.timedOut30s) ∧
    (extract_audio true (FfmpegRun.completes 5 1 true)).outcome =
      Except.error (ErrKind.audioExtraction, AudioMsg.exitCode 1) :=
  ⟨rfl, rfl⟩

/-- C4 (amended): extraction is bounded by the fixed 30-second timeout; on
expiry the subprocess is killed and the run fails with an
`AudioExtractionError` whose *message* (`timed out after 30 seconds`) — not
its kind — distinguishes it from the other extraction failures. -/
theorem claim4_timeout_kill (d : Nat) (rc : Int) (created : Bool)
    (h : d > audioTimeoutSeconds) :
    extract_audio true (FfmpegRun.completes d rc created) =
      ⟨Except.error (ErrKind.audioExtraction, AudioMsg.timedOut30s), true⟩ ∧
    (∀ rc2 : Int, AudioMsg.timedOut30s ≠ AudioMsg.exitCode rc2) ∧
    AudioMsg.timedOut30s ≠ AudioMsg.spawnFailed ∧
    AudioMsg.timedOut30s ≠ AudioMsg.noOutputFile := by
  refine ⟨?_, fun rc2 hh => AudioMsg.noConfusion hh, by decide, by decide⟩
  unfold extract_audio
  simp [h]

/-- C4 witness: a 31-second ffmpeg run times out, is killed, and errors. -/
theorem claim4_witness :
    extract_audio true (FfmpegRun.completes 31 0 true) =
      ⟨Except.error (ErrKind.audioExtraction, AudioMsg.timedOut30s), true⟩ ∧
    (∀ rc2 : Int, AudioMsg.timedOut30s ≠ AudioMsg.exitCode rc2) ∧
    AudioMsg.timedOut30s ≠ AudioMsg.spawnFailed ∧
    AudioMsg.timedOut30s ≠ AudioMsg.noOutputFile :=
  claim4_timeout_kill 31 0 true (by decide)

/-- C5 counterexample: for a Xiaohongshu source with metadata duration 7201
against the 7200-second limit, `download_video` raises `VideoDownloadError`
but the media download *was* invoked first — refuting "the download call is
never reached" for every remote source. -/
theorem claim5_counterexample :
    (download_video true 7201 defaultMaxVideoLength).result =
      Except.error ErrKind.videoDownload ∧
    DlEvent.xhsDownload ∈ (download_video true 7201 defaultMaxVideoLength).events :=
  ⟨rfl, by decide⟩

/-- C5 (amended): on the yt-dlp path the over-length check runs against
metadata obtained with download disabled and the media download is never
invoked; on the Xiaohongshu path the downloader transfers the media first
and the same error is raised only afterwards. -/
theorem claim5_precheck (dur maxLen : Nat) (h : dur > maxLen) :
    (download_video false dur maxLen).result = Except.error ErrKind.videoDownload ∧
    DlEvent.ytdlpDownload ∉ (download_video false dur maxLen).events ∧
    (download_video true dur maxLen).result = Except.error ErrKind.videoDownload ∧
    DlEvent.xhsDownload ∈ (download_video true dur maxLen).events := by
  unfold download_video
  simp [h]

/-- C5 witness: duration 7201 against the default 7200 limit. -/
theorem claim5_witness :
    (download_video false 7201 defaultMaxVideoLength).result =
      Except.error ErrKind.videoDownload ∧
    DlEvent.ytdlpDownload ∉ (download_video false 7201 defaultMaxVideoLength).events ∧
    (download_video true 7201 defaultMaxVideoLength).result =
      Except.error ErrKind.videoDownload ∧
    DlEvent.xhsDownload ∈ (download_video true 7201 defaultMaxVideoLength).events :=
  claim5_precheck 7201 defaultMaxVideoLength (by decide)

/-- C9: the claim is right and the code has a slip.  In the local-bypass
cleanup, `cleanup_video` is the empty string and `Path` of an empty string
is the current directory, which exists and is a directory, so
`cleanup_temp_files` runs `shutil.rmtree` over the working directory —
deleting the caller-supplied video file living there (the extracted audio
is removed as intended).  Contradicts the code's own comment "Cleanup
temporary files (but not local video files)". -/
theorem claim9_local_file_deleted :
    runCleanup (some "/work/video.mp4".toList) true (some "/tmp/audio.mp3".toList)
      ["/work/video.mp4".toList, "/work/notes.txt".toList, "/tmp/audio.mp3".toList]
      = [] ∧
    "/work/video.mp4".toList ∉
      runCleanup (some "/work/video.mp4".toList) true (some "/tmp/audio.mp3".toList)
        ["/work/video.mp4".toList, "/work/notes.txt".toList, "/tmp/audio.mp3".toList] ∧
    "/tmp/audio.mp3".toList ∉
      runCleanup (some "/work/video.mp4".toList) true (some "/tmp/audio.mp3".toList)
        ["/work/video.mp4".toList, "/work/notes.txt".toList, "/tmp/audio.mp3".toList] :=
  ⟨rfl, by decide, by decide⟩

end VTN
